import Mathlib

/-!
Verification of the Stock & Token Coordinator of the `agent-ecommerce-openai`
repository (the Durable Object class `MyDurableObject`).

The embedding has two layers.

* A big-step functional model of the coordinator's two operations
  `getCommerceLayerToken` and `checkStock` (together with the private helper
  `fetchStockFromAPI`).  Each `Date.now()` read of the source is an explicit
  `Nat` parameter (milliseconds), each outbound HTTP call is an oracle
  parameter of type `Except (Nat × String) _` (failure carries the HTTP status
  and body text, success the parsed JSON), and the model additionally returns
  the list of I/O actions performed, so that "no I/O happens" is expressible.

* A small-step, per-key concurrency model of `checkStock`, used for the
  temporal claims (inflight-request deduplication and cleanup on failure).
  Each transition is one synchronous segment of the source between two
  `await` suspension points.  The scheduler encodes the Cloudflare Durable
  Objects runtime's input gates: while a storage operation is pending, no new
  incoming call is delivered to the object, so a call's first synchronous
  segment can only run when no storage operation is in flight.

JavaScript numbers are modelled as integers (`Int` for stock quantities,
`Nat` for timestamps); fractional values are outside the scope of the model.
-/

namespace AgentEcom

/-- Result of a stock lookup, the `StockResult` type of the source. -/
structure StockResult where
  skuCode : String
  quantity : Int
  available : Bool
deriving DecidableEq, Repr

/-- Value cached for a SKU in the memory tier and in the durable tier: a
payload plus an absolute expiry timestamp in milliseconds. -/
structure CacheEntry where
  data : StockResult
  expiresAt : Nat
deriving DecidableEq, Repr

/-- Value persisted in the durable store under the key `cl_token`. -/
structure StoredToken where
  token : String
  expiresAt : Nat
deriving DecidableEq, Repr

/-- Typed upstream failures: `authError` is the thrown `CL token error`
(token exchange returned a non-success status), `apiError` is the thrown
`CL API error` (stock query returned a non-success status).  Both carry the
HTTP status and the response body text. -/
inductive UpstreamError where
  | authError (status : Nat) (body : String)
  | apiError (status : Nat) (body : String)
deriving DecidableEq, Repr

/-- Attributes of one stock-location record of the upstream
`stock_items` response.  The `quantity` field is optional: the source
guards every read of it with `item.attributes.quantity || 0`. -/
structure StockItemAttributes where
  sku_code : String
  quantity : Option Int
deriving DecidableEq, Repr

/-- One record of the upstream `stock_items` response. -/
structure StockItem where
  id : String
  attributes : StockItemAttributes
deriving DecidableEq, Repr

/-- Parsed JSON body of the upstream `stock_items` response.  The `data`
array may be absent: the source checks `!response.data` explicitly. -/
structure StockItemsResponse where
  data : Option (List StockItem)
deriving DecidableEq, Repr

/-- Parsed JSON body of a successful token exchange. -/
structure TokenResponse where
  access_token : String
  expires_in : Nat
deriving DecidableEq, Repr

/-- Durable store contents.  The coordinator uses exactly two key shapes,
`cl_token` and `stock:<skuCode>`; the two namespaces are disjoint, so the
store is modelled as one optional token record plus a map from SKU code to
cache entry (the `stock:` prefix left implicit in the map's key). -/
structure Storage where
  clToken : Option StoredToken
  stock : String → Option CacheEntry

/-- In-memory and durable state of the coordinator (`MyDurableObject`'s
private fields plus its `ctx.storage`). -/
structure DOState where
  token : Option String
  tokenExpiresAt : Nat
  stockCache : String → Option CacheEntry
  inflightStock : String → Bool
  storage : Storage

/-- Pointwise update of a string-keyed map of cache entries,
modelling `Map.set`. -/
def setEntry (m : String → Option CacheEntry) (k : String) (v : CacheEntry) :
    String → Option CacheEntry :=
  fun k' => if k' = k then some v else m k'

/-- Pointwise update of a string-keyed boolean map, modelling
`Map.set` / `Map.delete` on the inflight map. -/
def setFlag (m : String → Bool) (k : String) (v : Bool) : String → Bool :=
  fun k' => if k' = k then v else m k'

/-- One observable I/O action of the coordinator: a durable-store read or
write of a given key, or one of the two outbound HTTP calls. -/
inductive IOAction where
  | storageGet (key : String)
  | storagePut (key : String)
  | httpTokenExchange
  | httpStockQuery (sku : String)
deriving DecidableEq, Repr

/-- Tail of `getCommerceLayerToken` (the source from `// Fetch new token`
on): perform the token exchange; on non-success status throw, mutating
nothing; on success store the new credential in memory and durably.  The
storage read of `cl_token` that led here is the head of the returned log. -/
def getTokenFetchNew (st : DOState) (now : Nat)
    (tokenFetch : Except (Nat × String) TokenResponse) :
    Except UpstreamError String × DOState × List IOAction :=
  match tokenFetch with
  | .error sb =>
      (.error (.authError sb.1 sb.2), st,
       [.storageGet "cl_token", .httpTokenExchange])
  | .ok d =>
      let exp := now + d.expires_in * 1000
      (.ok d.access_token,
       { st with
           token := some d.access_token,
           tokenExpiresAt := exp,
           storage := { st.storage with clToken := some ⟨d.access_token, exp⟩ } },
       [.storageGet "cl_token", .httpTokenExchange, .storagePut "cl_token"])

/-- Middle of `getCommerceLayerToken` (the source from
`// Try to load from storage` on): read the persisted credential; if it is
present and valid with the 5-minute buffer, adopt it into memory and return
it, otherwise fall through to a fresh token exchange. -/
def getTokenFromStorage (st : DOState) (now : Nat)
    (tokenFetch : Except (Nat × String) TokenResponse) :
    Except UpstreamError String × DOState × List IOAction :=
  match st.storage.clToken with
  | some stored =>
      if now + 5 * 60 * 1000 < stored.expiresAt then
        (.ok stored.token,
         { st with token := some stored.token, tokenExpiresAt := stored.expiresAt },
         [.storageGet "cl_token"])
      else getTokenFetchNew st now tokenFetch
  | none => getTokenFetchNew st now tokenFetch

/-- Model of `MyDurableObject.getCommerceLayerToken`.  `now` is the single
`Date.now()` read at the top of the method; `tokenFetch` is the outcome of
the oauth POST, consulted only if the method reaches it.  Returns the
result (token string or typed error), the post-state, and the I/O log.
The source's in-memory validity test is `this.token && this.tokenExpiresAt
> now + 5 * 60 * 1000`; JavaScript truthiness of `this.token` means the
token is non-null and non-empty. -/
def getCommerceLayerToken (st : DOState) (now : Nat)
    (tokenFetch : Except (Nat × String) TokenResponse) :
    Except UpstreamError String × DOState × List IOAction :=
  match st.token with
  | some t =>
      if t ≠ "" ∧ now + 5 * 60 * 1000 < st.tokenExpiresAt then (.ok t, st, [])
      else getTokenFromStorage st now tokenFetch
  | none => getTokenFromStorage st now tokenFetch

/-- Sum of the `quantity` fields of a list of stock records, the source's
`response.data.reduce((sum, item) => sum + (item.attributes.quantity || 0), 0)`;
an absent quantity contributes 0. -/
def sumQuantities (items : List StockItem) : Int :=
  items.foldl (fun sum item => sum + item.attributes.quantity.getD 0) 0

/-- Pure tail of `fetchStockFromAPI`: turn a parsed `stock_items` response
into a `StockResult`.  An absent or empty `data` array yields quantity 0,
unavailable; otherwise the quantities are summed and availability is
`totalQuantity > 0`. -/
def aggregateStock (skuCode : String) (resp : StockItemsResponse) : StockResult :=
  match resp.data with
  | none => ⟨skuCode, 0, false⟩
  | some items =>
      if items.length = 0 then ⟨skuCode, 0, false⟩
      else
        let totalQuantity := sumQuantities items
        ⟨skuCode, totalQuantity, decide (0 < totalQuantity)⟩

/-- Model of `MyDurableObject.fetchStockFromAPI`: obtain a token (which may
read and write the `cl_token` storage key), then perform the stock query.
`nowTok` is the `Date.now()` read inside `getCommerceLayerToken`;
`apiFetch` is the outcome of the stock-items GET. -/
def fetchStockFromAPI (st : DOState) (skuCode : String) (nowTok : Nat)
    (tokenFetch : Except (Nat × String) TokenResponse)
    (apiFetch : Except (Nat × String) StockItemsResponse) :
    Except UpstreamError StockResult × DOState × List IOAction :=
  match getCommerceLayerToken st nowTok tokenFetch with
  | (.error e, st', log) => (.error e, st', log)
  | (.ok _, st', log) =>
      match apiFetch with
      | .error sb =>
          (.error (.apiError sb.1 sb.2), st', log ++ [.httpStockQuery skuCode])
      | .ok resp =>
          (.ok (aggregateStock skuCode resp), st', log ++ [.httpStockQuery skuCode])

/-- Which tier served a successful `checkStock` lookup (model
instrumentation; carries no data the source does not determine). -/
inductive Tier where
  | memory
  | durable
  | upstream
deriving DecidableEq, Repr

/-- Outcome of one `checkStock` call in the big-step model: `joined` means
the call returned an already-inflight promise (its value is settled by the
fetch that registered it, analysed in the small-step model); `ok` carries
the returned `StockResult` and the tier that served it. -/
inductive CheckOutcome where
  | joined
  | ok (r : StockResult) (src : Tier)
  | error (e : UpstreamError)
deriving DecidableEq, Repr

/-- Step 4 of `checkStock`: create the fetch promise, register it in the
inflight map, await it; on success cache the result in both tiers with a
60-second TTL; in all cases (the source's `finally`) delete the inflight
entry.  `now3` is the `Date.now()` read used for the new entry's expiry.
The head of the log is the durable-store read of step 3 that fell through
to this step. -/
def checkStockFetch (st : DOState) (skuCode : String) (nowTok now3 : Nat)
    (tokenFetch : Except (Nat × String) TokenResponse)
    (apiFetch : Except (Nat × String) StockItemsResponse) :
    CheckOutcome × DOState × List IOAction :=
  let stReg := { st with inflightStock := setFlag st.inflightStock skuCode true }
  match fetchStockFromAPI stReg skuCode nowTok tokenFetch apiFetch with
  | (.error e, st', flog) =>
      (.error e,
       { st' with inflightStock := setFlag st'.inflightStock skuCode false },
       [.storageGet ("stock:" ++ skuCode)] ++ flog)
  | (.ok r, st', flog) =>
      let cacheEntry : CacheEntry := ⟨r, now3 + 60000⟩
      (.ok r .upstream,
       { st' with
           stockCache := setEntry st'.stockCache skuCode cacheEntry,
           storage :=
             { st'.storage with stock := setEntry st'.storage.stock skuCode cacheEntry },
           inflightStock := setFlag st'.inflightStock skuCode false },
       [.storageGet ("stock:" ++ skuCode)] ++ flog ++
         [.storagePut ("stock:" ++ skuCode)])

/-- Step 3 of `checkStock`: read the durable tier; a fresh record is
promoted into the memory tier and returned, otherwise fall through to the
upstream fetch.  `now2` is the `Date.now()` of the freshness test. -/
def checkStockStorageTier (st : DOState) (skuCode : String)
    (now2 nowTok now3 : Nat)
    (tokenFetch : Except (Nat × String) TokenResponse)
    (apiFetch : Except (Nat × String) StockItemsResponse) :
    CheckOutcome × DOState × List IOAction :=
  match st.storage.stock skuCode with
  | some stored =>
      if now2 < stored.expiresAt then
        (.ok stored.data .durable,
         { st with stockCache := setEntry st.stockCache skuCode stored },
         [.storageGet ("stock:" ++ skuCode)])
      else checkStockFetch st skuCode nowTok now3 tokenFetch apiFetch
  | none => checkStockFetch st skuCode nowTok now3 tokenFetch apiFetch

/-- Model of `MyDurableObject.checkStock`, big-step (one call running to
completion with no interleaving).  Tier order as in the source: inflight
map, memory cache (freshness tested at `now1`), durable store (freshness
tested at `now2`), upstream fetch. -/
def checkStock (st : DOState) (skuCode : String)
    (now1 now2 nowTok now3 : Nat)
    (tokenFetch : Except (Nat × String) TokenResponse)
    (apiFetch : Except (Nat × String) StockItemsResponse) :
    CheckOutcome × DOState × List IOAction :=
  if st.inflightStock skuCode then (.joined, st, [])
  else
    match st.stockCache skuCode with
    | some cached =>
        if now1 < cached.expiresAt then (.ok cached.data .memory, st, [])
        else checkStockStorageTier st skuCode now2 nowTok now3 tokenFetch apiFetch
    | none => checkStockStorageTier st skuCode now2 nowTok now3 tokenFetch apiFetch

/-- Availability consistency of one stock result: the stored flag equals
the derived predicate `quantity > 0`. -/
def AvailOK (r : StockResult) : Prop := r.available = decide (0 < r.quantity)

/-- Availability consistency of every entry of both cache tiers. -/
def AvailWF (st : DOState) : Prop :=
  (∀ k c, st.stockCache k = some c → AvailOK c.data) ∧
  (∀ k c, st.storage.stock k = some c → AvailOK c.data)

/-- Key consistency: an entry stored under key `k` has `data.skuCode = k`,
in both cache tiers. -/
def KeyWF (st : DOState) : Prop :=
  (∀ k c, st.stockCache k = some c → c.data.skuCode = k) ∧
  (∀ k c, st.storage.stock k = some c → c.data.skuCode = k)

/-- Non-negativity of every cached quantity, in both cache tiers. -/
def NonnegWF (st : DOState) : Prop :=
  (∀ k c, st.stockCache k = some c → 0 ≤ c.data.quantity) ∧
  (∀ k c, st.storage.stock k = some c → 0 ≤ c.data.quantity)

/-- The token operation never touches the stock caches or the inflight
map: only the credential fields and the `cl_token` storage key change. -/
theorem getToken_stock_frame (st : DOState) (now : Nat)
    (tf : Except (Nat × String) TokenResponse) :
    (getCommerceLayerToken st now tf).2.1.stockCache = st.stockCache ∧
    (getCommerceLayerToken st now tf).2.1.inflightStock = st.inflightStock ∧
    (getCommerceLayerToken st now tf).2.1.storage.stock = st.storage.stock := by
  unfold getCommerceLayerToken getTokenFromStorage getTokenFetchNew
  rcases st.token with _ | t <;>
    rcases st.storage.clToken with _ | s <;>
    rcases tf with e | d <;>
    (repeat' split) <;> exact ⟨rfl, rfl, rfl⟩

/-- The private fetch helper never touches the stock caches or the
inflight map. -/
theorem fetchStock_stock_frame (st : DOState) (sku : String) (nowTok : Nat)
    (tf : Except (Nat × String) TokenResponse)
    (af : Except (Nat × String) StockItemsResponse) :
    (fetchStockFromAPI st sku nowTok tf af).2.1.stockCache = st.stockCache ∧
    (fetchStockFromAPI st sku nowTok tf af).2.1.inflightStock = st.inflightStock ∧
    (fetchStockFromAPI st sku nowTok tf af).2.1.storage.stock = st.storage.stock := by
  unfold fetchStockFromAPI
  rcases h : getCommerceLayerToken st nowTok tf with ⟨res, st', log⟩
  have hframe := getToken_stock_frame st nowTok tf
  rw [h] at hframe
  rcases res with e | tok
  · simpa using hframe
  · rcases af with e | resp <;> simpa using hframe

/-- A successful fetch result is the aggregation of the upstream response;
in particular the stock query succeeded. -/
theorem fetchStock_ok (st : DOState) (sku : String) (nowTok : Nat)
    (tf : Except (Nat × String) TokenResponse)
    (af : Except (Nat × String) StockItemsResponse) (r : StockResult)
    (h : (fetchStockFromAPI st sku nowTok tf af).1 = .ok r) :
    ∃ resp, af = .ok resp ∧ r = aggregateStock sku resp := by
  unfold fetchStockFromAPI at h
  rcases hg : getCommerceLayerToken st nowTok tf with ⟨res, st', log⟩
  rw [hg] at h
  rcases res with e | tok
  · simp at h
  · rcases af with e | resp <;> simp at h
    exact ⟨resp, rfl, h.symm⟩

/-- A failing token operation is exactly a failing token exchange, and the
typed error carries its status and body. -/
theorem getToken_error (st : DOState) (now : Nat)
    (tf : Except (Nat × String) TokenResponse) (e : UpstreamError)
    (h : (getCommerceLayerToken st now tf).1 = .error e) :
    ∃ s b, e = .authError s b ∧ tf = .error (s, b) := by
  rcases tf with f | d
  · refine ⟨f.1, f.2, ?_, rfl⟩
    rcases htok : st.token with _ | t <;>
      rcases hcl : st.storage.clToken with _ | s <;>
      simp only [getCommerceLayerToken, getTokenFromStorage, getTokenFetchNew,
        htok, hcl] at h <;>
      revert h <;> (repeat' split) <;> intro h <;>
      first
        | (exact Except.noConfusion h)
        | (injection h with h'; exact h'.symm)
  · exfalso
    rcases htok : st.token with _ | t <;>
      rcases hcl : st.storage.clToken with _ | s <;>
      simp only [getCommerceLayerToken, getTokenFromStorage, getTokenFetchNew,
        htok, hcl] at h <;>
      revert h <;> (repeat' split) <;> intro h <;>
      exact Except.noConfusion h

/-- A fetch failure is a typed propagation of the failing upstream call:
either the token exchange failed with that status and body, or the stock
query did. -/
theorem fetchStock_error (st : DOState) (sku : String) (nowTok : Nat)
    (tf : Except (Nat × String) TokenResponse)
    (af : Except (Nat × String) StockItemsResponse) (e : UpstreamError)
    (h : (fetchStockFromAPI st sku nowTok tf af).1 = .error e) :
    (∃ s b, e = .authError s b ∧ tf = .error (s, b)) ∨
    (∃ s b, e = .apiError s b ∧ af = .error (s, b)) := by
  unfold fetchStockFromAPI at h
  rcases hg : getCommerceLayerToken st nowTok tf with ⟨res, st', log⟩
  rw [hg] at h
  rcases res with e' | tok
  · left
    simp only at h
    obtain ⟨s, b, he, htf⟩ := getToken_error st nowTok tf e' (by rw [hg])
    injection h with h'
    exact ⟨s, b, h' ▸ he, htf⟩
  · rcases af with f | resp <;> simp at h
    right
    exact ⟨f.1, f.2, h.symm, rfl⟩

/-- When the token exchange oracle succeeds, the token operation cannot
fail, whichever tier serves it. -/
theorem getToken_ok_of_fetch_ok (st : DOState) (now : Nat) (d : TokenResponse) :
    ∃ t, (getCommerceLayerToken st now (.ok d)).1 = .ok t := by
  rcases htok : st.token with _ | t <;>
    rcases hcl : st.storage.clToken with _ | s <;>
    simp only [getCommerceLayerToken, getTokenFromStorage, getTokenFetchNew,
      htok, hcl] <;>
    (repeat' split) <;> exact ⟨_, rfl⟩

/-- Folding addition of mapped values equals the accumulator plus the sum
of the mapped list. -/
theorem foldl_add_eq_sum {α : Type} (f : α → Int) (l : List α) (a : Int) :
    l.foldl (fun s x => s + f x) a = a + (l.map f).sum := by
  induction l generalizing a with
  | nil => simp
  | cons x xs ih => simp [ih, add_assoc]

/-- The source's quantity reduction is the sum of the per-record
quantities, an absent quantity counting 0. -/
theorem sumQuantities_eq (items : List StockItem) :
    sumQuantities items =
      (items.map (fun it => it.attributes.quantity.getD 0)).sum := by
  simpa using foldl_add_eq_sum (fun it => it.attributes.quantity.getD 0) items 0

/-- Aggregation of a present `data` array: the quantity is the sum over
all records and availability is its positivity (an empty array sums to 0
and the source's early return coincides with the sum formula). -/
theorem aggregateStock_some (sku : String) (items : List StockItem) :
    aggregateStock sku ⟨some items⟩ =
      ⟨sku, (items.map (fun it => it.attributes.quantity.getD 0)).sum,
       decide (0 < (items.map (fun it => it.attributes.quantity.getD 0)).sum)⟩ := by
  unfold aggregateStock
  rcases items with _ | ⟨x, xs⟩
  · rfl
  · simp only [List.length_cons, Nat.succ_ne_zero, if_false, sumQuantities_eq]

/-- The aggregated result always carries the requested SKU code. -/
theorem aggregateStock_skuCode (sku : String) (resp : StockItemsResponse) :
    (aggregateStock sku resp).skuCode = sku := by
  unfold aggregateStock
  rcases resp with ⟨_ | items⟩
  · rfl
  · dsimp only
    split <;> rfl

/-- The aggregated availability flag is exactly the positivity of the
aggregated quantity. -/
theorem aggregateStock_availOK (sku : String) (resp : StockItemsResponse) :
    AvailOK (aggregateStock sku resp) := by
  unfold AvailOK aggregateStock
  rcases resp with ⟨_ | items⟩
  · rfl
  · dsimp only
    split
    · rfl
    · rfl

/-- When every record's quantity is absent or non-negative, the aggregated
quantity is non-negative. -/
theorem aggregateStock_nonneg (sku : String) (resp : StockItemsResponse)
    (h : ∀ items, resp.data = some items →
      ∀ it ∈ items, 0 ≤ it.attributes.quantity.getD 0) :
    0 ≤ (aggregateStock sku resp).quantity := by
  unfold aggregateStock
  rcases hd : resp.data with _ | items
  · simp
  · dsimp only
    split
    · simp
    · dsimp only
      rw [sumQuantities_eq]
      refine List.sum_nonneg ?_
      intro q hq
      rcases List.mem_map.mp hq with ⟨it, hit, rfl⟩
      exact h items hd it hit

/-- Reduction of `checkStock` to its durable-store tier when the key is
not inflight and the memory tier misses or is stale. -/
theorem checkStock_eq_storageTier (st : DOState) (sku : String)
    (now1 now2 nowTok now3 : Nat)
    (tf : Except (Nat × String) TokenResponse)
    (af : Except (Nat × String) StockItemsResponse)
    (hinf : st.inflightStock sku = false)
    (hmem : ∀ c, st.stockCache sku = some c → ¬ now1 < c.expiresAt) :
    checkStock st sku now1 now2 nowTok now3 tf af =
      checkStockStorageTier st sku now2 nowTok now3 tf af := by
  unfold checkStock
  rw [hinf]
  simp only [Bool.false_eq_true, if_false]
  rcases hc : st.stockCache sku with _ | c
  · rfl
  · dsimp only
    rw [if_neg (hmem c hc)]

/-- Reduction of the durable-store tier to the upstream fetch when the
durable record misses or is stale. -/
theorem storageTier_eq_fetch (st : DOState) (sku : String)
    (now2 nowTok now3 : Nat)
    (tf : Except (Nat × String) TokenResponse)
    (af : Except (Nat × String) StockItemsResponse)
    (hstor : ∀ d, st.storage.stock sku = some d → ¬ now2 < d.expiresAt) :
    checkStockStorageTier st sku now2 nowTok now3 tf af =
      checkStockFetch st sku nowTok now3 tf af := by
  unfold checkStockStorageTier
  rcases hs : st.storage.stock sku with _ | d
  · rfl
  · dsimp only
    rw [if_neg (hstor d hs)]

/-- Description of the upstream step of `checkStock`: on a failing fetch
the typed error is returned and neither stock tier changes; on a
successful fetch both tiers receive the aggregated entry with a 60-second
TTL.  In both cases the inflight flag for the key ends cleared and the
durable tier was read. -/
theorem checkStockFetch_spec (st : DOState) (sku : String)
    (nowTok now3 : Nat)
    (tf : Except (Nat × String) TokenResponse)
    (af : Except (Nat × String) StockItemsResponse) :
    (∃ e,
       (fetchStockFromAPI
           { st with inflightStock := setFlag st.inflightStock sku true }
           sku nowTok tf af).1 = .error e ∧
       (checkStockFetch st sku nowTok now3 tf af).1 = .error e ∧
       (checkStockFetch st sku nowTok now3 tf af).2.1.stockCache =
         st.stockCache ∧
       (checkStockFetch st sku nowTok now3 tf af).2.1.storage.stock =
         st.storage.stock ∧
       (checkStockFetch st sku nowTok now3 tf af).2.1.inflightStock sku =
         false ∧
       .storageGet ("stock:" ++ sku) ∈
         (checkStockFetch st sku nowTok now3 tf af).2.2) ∨
    (∃ resp, af = .ok resp ∧
       (checkStockFetch st sku nowTok now3 tf af).1 =
         .ok (aggregateStock sku resp) .upstream ∧
       (checkStockFetch st sku nowTok now3 tf af).2.1.stockCache =
         setEntry st.stockCache sku ⟨aggregateStock sku resp, now3 + 60000⟩ ∧
       (checkStockFetch st sku nowTok now3 tf af).2.1.storage.stock =
         setEntry st.storage.stock sku ⟨aggregateStock sku resp, now3 + 60000⟩ ∧
       (checkStockFetch st sku nowTok now3 tf af).2.1.inflightStock sku =
         false ∧
       .storageGet ("stock:" ++ sku) ∈
         (checkStockFetch st sku nowTok now3 tf af).2.2) := by
  have hframe := fetchStock_stock_frame
    { st with inflightStock := setFlag st.inflightStock sku true }
    sku nowTok tf af
  rcases hf : fetchStockFromAPI
      { st with inflightStock := setFlag st.inflightStock sku true }
      sku nowTok tf af with ⟨res, st', flog⟩
  obtain ⟨hfc, hfi, hfs⟩ := hframe
  rw [hf] at hfc hfi hfs
  dsimp only at hfc hfi hfs
  rcases res with e | r
  · left
    refine ⟨e, rfl, ?_, ?_, ?_, ?_, ?_⟩
    · simp only [checkStockFetch, hf]
    · simp only [checkStockFetch, hf]
      exact hfc
    · simp only [checkStockFetch, hf]
      exact hfs
    · simp only [checkStockFetch, hf]
      simp [setFlag]
    · simp only [checkStockFetch, hf]
      simp
  · right
    obtain ⟨resp, haf, hr⟩ := fetchStock_ok _ _ _ _ _ _ (by rw [hf])
    subst hr
    refine ⟨resp, haf, ?_, ?_, ?_, ?_, ?_⟩
    · simp only [checkStockFetch, hf]
    · simp only [checkStockFetch, hf]
      rw [hfc]
    · simp only [checkStockFetch, hf]
      rw [hfs]
    · simp only [checkStockFetch, hf]
      simp [setFlag]
    · simp only [checkStockFetch, hf]
      simp

/-- Description of the durable tier and below: either a fresh durable
record is promoted and returned, or the upstream step runs. -/
theorem checkStockStorageTier_spec (st : DOState) (sku : String)
    (now2 nowTok now3 : Nat)
    (tf : Except (Nat × String) TokenResponse)
    (af : Except (Nat × String) StockItemsResponse) :
    (∃ d, st.storage.stock sku = some d ∧ now2 < d.expiresAt ∧
       checkStockStorageTier st sku now2 nowTok now3 tf af =
         (.ok d.data .durable,
          { st with stockCache := setEntry st.stockCache sku d },
          [.storageGet ("stock:" ++ sku)])) ∨
    (∃ e,
       (fetchStockFromAPI
           { st with inflightStock := setFlag st.inflightStock sku true }
           sku nowTok tf af).1 = .error e ∧
       (checkStockStorageTier st sku now2 nowTok now3 tf af).1 = .error e ∧
       (checkStockStorageTier st sku now2 nowTok now3 tf af).2.1.stockCache =
         st.stockCache ∧
       (checkStockStorageTier st sku now2 nowTok now3 tf af).2.1.storage.stock =
         st.storage.stock ∧
       (checkStockStorageTier st sku now2 nowTok now3 tf af).2.1.inflightStock
           sku = false ∧
       .storageGet ("stock:" ++ sku) ∈
         (checkStockStorageTier st sku now2 nowTok now3 tf af).2.2) ∨
    (∃ resp, af = .ok resp ∧
       (checkStockStorageTier st sku now2 nowTok now3 tf af).1 =
         .ok (aggregateStock sku resp) .upstream ∧
       (checkStockStorageTier st sku now2 nowTok now3 tf af).2.1.stockCache =
         setEntry st.stockCache sku ⟨aggregateStock sku resp, now3 + 60000⟩ ∧
       (checkStockStorageTier st sku now2 nowTok now3 tf af).2.1.storage.stock =
         setEntry st.storage.stock sku ⟨aggregateStock sku resp, now3 + 60000⟩ ∧
       (checkStockStorageTier st sku now2 nowTok now3 tf af).2.1.inflightStock
           sku = false ∧
       .storageGet ("stock:" ++ sku) ∈
         (checkStockStorageTier st sku now2 nowTok now3 tf af).2.2) := by
  rcases hs : st.storage.stock sku with _ | d
  case none =>
    have hstor : ∀ d, st.storage.stock sku = some d → ¬ now2 < d.expiresAt := by
      intro d hd
      rw [hs] at hd
      exact absurd hd (by simp)
    rw [storageTier_eq_fetch st sku now2 nowTok now3 tf af hstor]
    rcases checkStockFetch_spec st sku nowTok now3 tf af with h | h
    · exact Or.inr (Or.inl h)
    · exact Or.inr (Or.inr h)
  case some =>
    cases hfresh : decide (now2 < d.expiresAt)
    case true =>
      left
      refine ⟨d, rfl, of_decide_eq_true hfresh, ?_⟩
      unfold checkStockStorageTier
      rw [hs]
      dsimp only
      rw [if_pos (of_decide_eq_true hfresh)]
    case false =>
      have hstor : ∀ d', st.storage.stock sku = some d' → ¬ now2 < d'.expiresAt := by
        intro d' hd
        rw [hs] at hd
        cases hd
        exact of_decide_eq_false hfresh
      rw [storageTier_eq_fetch st sku now2 nowTok now3 tf af hstor]
      rcases checkStockFetch_spec st sku nowTok now3 tf af with h | h
      · exact Or.inr (Or.inl h)
      · exact Or.inr (Or.inr h)

/-- Exhaustive description of one big-step `checkStock` call: exactly one
of the five control paths of the source is taken, and in each case the
returned outcome, the post-state's stock tiers and the inflight flag are
as the source computes them. -/
theorem checkStock_spec (st : DOState) (sku : String)
    (now1 now2 nowTok now3 : Nat)
    (tf : Except (Nat × String) TokenResponse)
    (af : Except (Nat × String) StockItemsResponse) :
    (st.inflightStock sku = true ∧
       checkStock st sku now1 now2 nowTok now3 tf af = (.joined, st, [])) ∨
    (∃ c, st.stockCache sku = some c ∧ now1 < c.expiresAt ∧
       checkStock st sku now1 now2 nowTok now3 tf af =
         (.ok c.data .memory, st, [])) ∨
    (∃ d, st.storage.stock sku = some d ∧ now2 < d.expiresAt ∧
       checkStock st sku now1 now2 nowTok now3 tf af =
         (.ok d.data .durable,
          { st with stockCache := setEntry st.stockCache sku d },
          [.storageGet ("stock:" ++ sku)])) ∨
    (∃ e,
       (fetchStockFromAPI
           { st with inflightStock := setFlag st.inflightStock sku true }
           sku nowTok tf af).1 = .error e ∧
       (checkStock st sku now1 now2 nowTok now3 tf af).1 = .error e ∧
       (checkStock st sku now1 now2 nowTok now3 tf af).2.1.stockCache =
         st.stockCache ∧
       (checkStock st sku now1 now2 nowTok now3 tf af).2.1.storage.stock =
         st.storage.stock ∧
       (checkStock st sku now1 now2 nowTok now3 tf af).2.1.inflightStock sku =
         false ∧
       .storageGet ("stock:" ++ sku) ∈
         (checkStock st sku now1 now2 nowTok now3 tf af).2.2) ∨
    (∃ resp, af = .ok resp ∧
       (checkStock st sku now1 now2 nowTok now3 tf af).1 =
         .ok (aggregateStock sku resp) .upstream ∧
       (checkStock st sku now1 now2 nowTok now3 tf af).2.1.stockCache =
         setEntry st.stockCache sku ⟨aggregateStock sku resp, now3 + 60000⟩ ∧
       (checkStock st sku now1 now2 nowTok now3 tf af).2.1.storage.stock =
         setEntry st.storage.stock sku ⟨aggregateStock sku resp, now3 + 60000⟩ ∧
       (checkStock st sku now1 now2 nowTok now3 tf af).2.1.inflightStock sku =
         false ∧
       .storageGet ("stock:" ++ sku) ∈
         (checkStock st sku now1 now2 nowTok now3 tf af).2.2) := by
  cases hinf : st.inflightStock sku
  case true =>
    left
    exact ⟨rfl, by simp [checkStock, hinf]⟩
  case false =>
  rcases hc : st.stockCache sku with _ | c
  case none =>
    have hmem : ∀ c', st.stockCache sku = some c' → ¬ now1 < c'.expiresAt := by
      intro c' hc'
      rw [hc] at hc'
      exact absurd hc' (by simp)
    rw [checkStock_eq_storageTier st sku now1 now2 nowTok now3 tf af hinf hmem]
    rcases checkStockStorageTier_spec st sku now2 nowTok now3 tf af with h | h | h
    · exact Or.inr (Or.inr (Or.inl h))
    · exact Or.inr (Or.inr (Or.inr (Or.inl h)))
    · exact Or.inr (Or.inr (Or.inr (Or.inr h)))
  case some =>
    cases hfresh : decide (now1 < c.expiresAt)
    case true =>
      right; left
      refine ⟨c, rfl, of_decide_eq_true hfresh, ?_⟩
      unfold checkStock
      rw [hinf]
      simp only [Bool.false_eq_true, if_false, hc]
      rw [if_pos (of_decide_eq_true hfresh)]
    case false =>
      have hmem : ∀ c', st.stockCache sku = some c' → ¬ now1 < c'.expiresAt := by
        intro c' hc'
        rw [hc] at hc'
        cases hc'
        exact of_decide_eq_false hfresh
      rw [checkStock_eq_storageTier st sku now1 now2 nowTok now3 tf af hinf hmem]
      rcases checkStockStorageTier_spec st sku now2 nowTok now3 tf af with h | h | h
      · exact Or.inr (Or.inr (Or.inl h))
      · exact Or.inr (Or.inr (Or.inr (Or.inl h)))
      · exact Or.inr (Or.inr (Or.inr (Or.inr h)))

/-- Updating a key with a value satisfying a per-key property preserves
that property over the whole map. -/
theorem mapWF_set {P : String → StockResult → Prop}
    (m : String → Option CacheEntry) (k : String) (v : CacheEntry)
    (hm : ∀ k' c, m k' = some c → P k' c.data) (hv : P k v.data) :
    ∀ k' c, setEntry m k v k' = some c → P k' c.data := by
  intro k' c h
  unfold setEntry at h
  split at h
  case isTrue heq =>
    cases h
    rw [heq]
    exact hv
  case isFalse => exact hm k' c h

/-- A per-key property of both stock tiers transports along equality of
the two tier maps. -/
theorem stockWF_of_eq {P : String → StockResult → Prop} (st st' : DOState)
    (hc : st'.stockCache = st.stockCache)
    (hs : st'.storage.stock = st.storage.stock)
    (h : (∀ k c, st.stockCache k = some c → P k c.data) ∧
         (∀ k c, st.storage.stock k = some c → P k c.data)) :
    (∀ k c, st'.stockCache k = some c → P k c.data) ∧
    (∀ k c, st'.storage.stock k = some c → P k c.data) := by
  rw [hc, hs]
  exact h

/-- Coordinator state with empty caches, no credential and no inflight
entries; concrete evaluation point for the witnesses below. -/
def emptyState : DOState :=
  { token := none, tokenExpiresAt := 0,
    stockCache := fun _ => none, inflightStock := fun _ => false,
    storage := { clToken := none, stock := fun _ => none } }

/-- Concrete state whose memory tier holds a fresh entry for SKU `X`
(expiry 100) and whose durable tier holds a different entry for `X`. -/
def freshMemState : DOState :=
  { emptyState with
      stockCache := fun k => if k = "X" then some ⟨⟨"X", 5, true⟩, 100⟩ else none,
      storage := { clToken := none,
                   stock := fun k => if k = "X" then some ⟨⟨"X", 2, true⟩, 1⟩ else none } }

/-- Concrete state whose memory tier is empty and whose durable tier holds
a fresh entry for SKU `X` (expiry 100). -/
def freshStorState : DOState :=
  { emptyState with
      storage := { clToken := none,
                   stock := fun k => if k = "X" then some ⟨⟨"X", 7, true⟩, 100⟩ else none } }

/-- Concrete state holding a valid in-memory credential (expiry 10 min). -/
def validTokState : DOState :=
  { emptyState with token := some "t1", tokenExpiresAt := 10 * 60 * 1000 }

/-- Concrete state holding an in-memory credential expiring in 1 second:
not yet expired, but inside the 5-minute refresh buffer at time 0. -/
def staleTokState : DOState :=
  { emptyState with token := some "t2", tokenExpiresAt := 1000 }

/-- C2: on the upstream path (no inflight entry, both cache tiers missing
or stale), `checkStock` returns a `StockResult` whose quantity is the sum
of the `quantity` field over all returned stock-location records, a
missing quantity contributing 0, and whose availability is the positivity
of that sum. -/
theorem checkStock_quantity_aggregation
    (st : DOState) (sku : String) (now1 now2 nowTok now3 : Nat)
    (td : TokenResponse) (items : List StockItem)
    (hinf : st.inflightStock sku = false)
    (hmem : ∀ c, st.stockCache sku = some c → c.expiresAt ≤ now1)
    (hstor : ∀ d, st.storage.stock sku = some d → d.expiresAt ≤ now2) :
    (checkStock st sku now1 now2 nowTok now3 (.ok td) (.ok ⟨some items⟩)).1 =
      .ok ⟨sku, (items.map (fun it => it.attributes.quantity.getD 0)).sum,
           decide (0 < (items.map (fun it => it.attributes.quantity.getD 0)).sum)⟩
        .upstream := by
  have hmem' : ∀ c, st.stockCache sku = some c → ¬ now1 < c.expiresAt := by
    intro c hc
    have := hmem c hc
    omega
  have hstor' : ∀ d, st.storage.stock sku = some d → ¬ now2 < d.expiresAt := by
    intro d hd
    have := hstor d hd
    omega
  rw [checkStock_eq_storageTier st sku now1 now2 nowTok now3 _ _ hinf hmem',
      storageTier_eq_fetch st sku now2 nowTok now3 _ _ hstor']
  rcases checkStockFetch_spec st sku nowTok now3 (.ok td) (.ok ⟨some items⟩) with
    ⟨e, hfe, _⟩ | ⟨resp, haf, hout, _⟩
  · exfalso
    rcases fetchStock_error _ _ _ _ _ _ hfe with ⟨s, b, _, htf⟩ | ⟨s, b, _, haf⟩
    · exact Except.noConfusion htf
    · exact Except.noConfusion haf
  · injection haf with h2
    subst h2
    rw [hout, aggregateStock_some]

/-- Witness for C2 at the spec's own example: records with quantities
3, 0 and 7 for SKU `X` yield `skuCode X, quantity 10, available true`. -/
theorem checkStock_quantity_aggregation_witness :
    (checkStock emptyState "X" 0 0 0 0 (.ok ⟨"tok", 3600⟩)
        (.ok ⟨some [⟨"a", ⟨"X", some 3⟩⟩, ⟨"b", ⟨"X", some 0⟩⟩,
                    ⟨"c", ⟨"X", some 7⟩⟩]⟩)).1 =
      .ok ⟨"X", 10, true⟩ .upstream := by
  rw [checkStock_quantity_aggregation emptyState "X" 0 0 0 0 ⟨"tok", 3600⟩
    [⟨"a", ⟨"X", some 3⟩⟩, ⟨"b", ⟨"X", some 0⟩⟩, ⟨"c", ⟨"X", some 7⟩⟩]
    rfl
    (by intro c hc; exact absurd hc (by simp [emptyState]))
    (by intro d hd; exact absurd hd (by simp [emptyState]))]
  decide

/-- C4: the token manager treats the in-memory credential as valid exactly
on the 5-minute refresh buffer.  If it is valid (more than 5 minutes to
expiry), it is returned immediately, the state is unchanged and no I/O is
performed; if it is inside the buffer (even though not yet expired), the
durable-store copy is read, and if that copy is also inside the buffer or
absent, a fresh token exchange is issued. -/
theorem getToken_refresh_buffer :
    (∀ st now tf t, st.token = some t → t ≠ "" →
        now + 5 * 60 * 1000 < st.tokenExpiresAt →
        getCommerceLayerToken st now tf = (.ok t, st, [])) ∧
    (∀ st now tf t, st.token = some t →
        st.tokenExpiresAt ≤ now + 5 * 60 * 1000 →
        .storageGet "cl_token" ∈ (getCommerceLayerToken st now tf).2.2) ∧
    (∀ st now tf t, st.token = some t →
        st.tokenExpiresAt ≤ now + 5 * 60 * 1000 →
        (∀ s, st.storage.clToken = some s → s.expiresAt ≤ now + 5 * 60 * 1000) →
        .httpTokenExchange ∈ (getCommerceLayerToken st now tf).2.2) := by
  refine ⟨?_, ?_, ?_⟩
  · intro st now tf t htok hne hlt
    simp only [getCommerceLayerToken, htok]
    rw [if_pos ⟨hne, hlt⟩]
  · intro st now tf t htok hle
    simp only [getCommerceLayerToken, htok]
    rw [if_neg (by intro h; omega)]
    unfold getTokenFromStorage getTokenFetchNew
    rcases st.storage.clToken with _ | s
    · rcases tf with e | d <;> simp
    · dsimp only
      split
      · simp
      · rcases tf with e | d <;> simp
  · intro st now tf t htok hle hstored
    simp only [getCommerceLayerToken, htok]
    rw [if_neg (by intro h; omega)]
    unfold getTokenFromStorage getTokenFetchNew
    rcases hs : st.storage.clToken with _ | s
    · rcases tf with e | d <;> simp
    · dsimp only
      rw [if_neg (by have := hstored s hs; omega)]
      rcases tf with e | d <;> simp

/-- Witness for C4: at time 0, a credential expiring at 10 minutes is
served from memory with no I/O, while a credential expiring at 1 second
(not yet expired) causes a durable-store read and, the store being empty,
a token exchange. -/
theorem getToken_refresh_buffer_witness :
    getCommerceLayerToken validTokState 0 (.error (500, "x")) =
      (.ok "t1", validTokState, []) ∧
    .storageGet "cl_token" ∈
      (getCommerceLayerToken staleTokState 0 (.error (500, "x"))).2.2 ∧
    .httpTokenExchange ∈
      (getCommerceLayerToken staleTokState 0 (.error (500, "x"))).2.2 := by
  refine ⟨?_, ?_, ?_⟩
  · exact getToken_refresh_buffer.1 validTokState 0 _ "t1" rfl (by decide) (by decide)
  · exact getToken_refresh_buffer.2.1 staleTokState 0 _ "t2" rfl (by decide)
  · exact getToken_refresh_buffer.2.2 staleTokState 0 _ "t2" rfl (by decide)
      (by intro s hs; exact absurd hs (by simp [staleTokState, emptyState]))

/-- C5: a cache record whose expiry has passed is never the one returned:
a result served from the memory tier comes from a record strictly fresher
than the check time, likewise for the durable tier; and when the key is
not inflight and both tiers are missing or stale, the lookup goes to the
upstream fetch (any successful result is tagged upstream, and the durable
store was read on the way). -/
theorem checkStock_ttl_expiry :
    (∀ st sku now1 now2 nowTok now3 tf af r,
        (checkStock st sku now1 now2 nowTok now3 tf af).1 = .ok r .memory →
        ∃ c, st.stockCache sku = some c ∧ c.data = r ∧ now1 < c.expiresAt) ∧
    (∀ st sku now1 now2 nowTok now3 tf af r,
        (checkStock st sku now1 now2 nowTok now3 tf af).1 = .ok r .durable →
        ∃ d, st.storage.stock sku = some d ∧ d.data = r ∧ now2 < d.expiresAt) ∧
    (∀ st sku now1 now2 nowTok now3 tf af,
        st.inflightStock sku = false →
        (∀ c, st.stockCache sku = some c → c.expiresAt ≤ now1) →
        (∀ d, st.storage.stock sku = some d → d.expiresAt ≤ now2) →
        (∀ r t, (checkStock st sku now1 now2 nowTok now3 tf af).1 = .ok r t →
           t = Tier.upstream) ∧
        .storageGet ("stock:" ++ sku) ∈
          (checkStock st sku now1 now2 nowTok now3 tf af).2.2) := by
  refine ⟨?_, ?_, ?_⟩
  · intro st sku now1 now2 nowTok now3 tf af r hr
    rcases checkStock_spec st sku now1 now2 nowTok now3 tf af with
      ⟨_, heq⟩ | ⟨c, hc, hfresh, heq⟩ | ⟨d, hd, hfresh, heq⟩ |
      ⟨e, _, hout, _⟩ | ⟨resp, _, hout, _⟩
    · rw [heq] at hr
      exact absurd hr (by simp)
    · rw [heq] at hr
      injection hr with h1 h2
      exact ⟨c, hc, h1, hfresh⟩
    · rw [heq] at hr
      injection hr with h1 h2
      exact absurd h2 (by simp)
    · rw [hout] at hr
      exact absurd hr (by simp)
    · rw [hout] at hr
      injection hr with h1 h2
      exact absurd h2 (by simp)
  · intro st sku now1 now2 nowTok now3 tf af r hr
    rcases checkStock_spec st sku now1 now2 nowTok now3 tf af with
      ⟨_, heq⟩ | ⟨c, hc, hfresh, heq⟩ | ⟨d, hd, hfresh, heq⟩ |
      ⟨e, _, hout, _⟩ | ⟨resp, _, hout, _⟩
    · rw [heq] at hr
      exact absurd hr (by simp)
    · rw [heq] at hr
      injection hr with h1 h2
      exact absurd h2 (by simp)
    · rw [heq] at hr
      injection hr with h1 h2
      exact ⟨d, hd, h1, hfresh⟩
    · rw [hout] at hr
      exact absurd hr (by simp)
    · rw [hout] at hr
      injection hr with h1 h2
      exact absurd h2 (by simp)
  · intro st sku now1 now2 nowTok now3 tf af hinf hmem hstor
    have hmem' : ∀ c, st.stockCache sku = some c → ¬ now1 < c.expiresAt := by
      intro c hc
      have := hmem c hc
      omega
    have hstor' : ∀ d, st.storage.stock sku = some d → ¬ now2 < d.expiresAt := by
      intro d hd
      have := hstor d hd
      omega
    rw [checkStock_eq_storageTier st sku now1 now2 nowTok now3 _ _ hinf hmem',
        storageTier_eq_fetch st sku now2 nowTok now3 _ _ hstor']
    rcases checkStockFetch_spec st sku nowTok now3 tf af with
      ⟨e, _, hout, _, _, _, hlog⟩ | ⟨resp, _, hout, _, _, _, hlog⟩
    · refine ⟨?_, hlog⟩
      intro r t hr
      rw [hout] at hr
      exact absurd hr (by simp)
    · refine ⟨?_, hlog⟩
      intro r t hr
      rw [hout] at hr
      injection hr with h1 h2
      exact h2.symm

/-- Witness for C5: with a fresh memory entry for `X` a memory-tagged
result is fresh; with a fresh durable entry a durable-tagged result is
fresh; with empty caches the lookup reads the durable store and any
success is upstream-tagged. -/
theorem checkStock_ttl_expiry_witness :
    (∃ c, freshMemState.stockCache "X" = some c ∧
       c.data = StockResult.mk "X" 5 true ∧ 0 < c.expiresAt) ∧
    (∃ d, freshStorState.storage.stock "X" = some d ∧
       d.data = StockResult.mk "X" 7 true ∧ 0 < d.expiresAt) ∧
    ((∀ r t,
        (checkStock emptyState "X" 0 0 0 0 (.ok ⟨"tok", 3600⟩)
            (.ok ⟨some []⟩)).1 = .ok r t → t = Tier.upstream) ∧
     .storageGet ("stock:" ++ "X") ∈
       (checkStock emptyState "X" 0 0 0 0 (.ok ⟨"tok", 3600⟩)
           (.ok ⟨some []⟩)).2.2) := by
  refine ⟨?_, ?_, ?_⟩
  · exact checkStock_ttl_expiry.1 freshMemState "X" 0 0 0 0
      (.ok ⟨"tok", 3600⟩) (.ok ⟨some []⟩) ⟨"X", 5, true⟩ (by decide)
  · exact checkStock_ttl_expiry.2.1 freshStorState "X" 0 0 0 0
      (.ok ⟨"tok", 3600⟩) (.ok ⟨some []⟩) ⟨"X", 7, true⟩ (by decide)
  · exact checkStock_ttl_expiry.2.2 emptyState "X" 0 0 0 0
      (.ok ⟨"tok", 3600⟩) (.ok ⟨some []⟩) rfl
      (by intro c hc; exact absurd hc (by simp [emptyState]))
      (by intro d hd; exact absurd hd (by simp [emptyState]))

/-- C6: tiers are consulted in strict order with the first hit winning.
If the key is not inflight and the memory tier is fresh, its value is
returned with no I/O at all (in particular the durable store is not read),
whatever the durable tier holds; on a memory miss or stale memory entry
with a fresh durable record, that record is promoted into the memory tier
and its payload returned. -/
theorem checkStock_tier_precedence :
    (∀ st sku now1 now2 nowTok now3 tf af c,
        st.inflightStock sku = false →
        st.stockCache sku = some c → now1 < c.expiresAt →
        checkStock st sku now1 now2 nowTok now3 tf af =
          (.ok c.data .memory, st, [])) ∧
    (∀ st sku now1 now2 nowTok now3 tf af d,
        st.inflightStock sku = false →
        (∀ c, st.stockCache sku = some c → c.expiresAt ≤ now1) →
        st.storage.stock sku = some d → now2 < d.expiresAt →
        checkStock st sku now1 now2 nowTok now3 tf af =
          (.ok d.data .durable,
           { st with stockCache := setEntry st.stockCache sku d },
           [.storageGet ("stock:" ++ sku)])) := by
  constructor
  · intro st sku now1 now2 nowTok now3 tf af c hinf hc hfresh
    unfold checkStock
    rw [hinf]
    simp only [Bool.false_eq_true, if_false, hc]
    rw [if_pos hfresh]
  · intro st sku now1 now2 nowTok now3 tf af d hinf hmem hd hfresh
    have hmem' : ∀ c, st.stockCache sku = some c → ¬ now1 < c.expiresAt := by
      intro c hc
      have := hmem c hc
      omega
    rw [checkStock_eq_storageTier st sku now1 now2 nowTok now3 _ _ hinf hmem']
    unfold checkStockStorageTier
    rw [hd]
    dsimp only
    rw [if_pos hfresh]

/-- Witness for C6: in `freshMemState` the memory entry (quantity 5) wins
over the different durable entry with no I/O; in `freshStorState` the
durable entry (quantity 7) is promoted and returned. -/
theorem checkStock_tier_precedence_witness :
    checkStock freshMemState "X" 0 0 0 0 (.error (500, "x")) (.error (500, "x")) =
      (.ok ⟨"X", 5, true⟩ .memory, freshMemState, []) ∧
    checkStock freshStorState "X" 0 0 0 0 (.error (500, "x")) (.error (500, "x")) =
      (.ok ⟨"X", 7, true⟩ .durable,
       { freshStorState with
           stockCache := setEntry freshStorState.stockCache "X" ⟨⟨"X", 7, true⟩, 100⟩ },
       [.storageGet ("stock:" ++ "X")]) := by
  constructor
  · exact checkStock_tier_precedence.1 freshMemState "X" 0 0 0 0 _ _
      ⟨⟨"X", 5, true⟩, 100⟩ rfl (by decide) (by decide)
  · exact checkStock_tier_precedence.2 freshStorState "X" 0 0 0 0 _ _
      ⟨⟨"X", 7, true⟩, 100⟩ rfl
      (by intro c hc; exact absurd hc (by simp [freshStorState, emptyState]))
      (by decide) (by decide)

/-- C7: `checkStock` fails exactly when an upstream call fails.  When both
upstream oracles succeed no error is returned; every returned error is the
typed propagation of a failing upstream call (auth error of the token
exchange or API error of the stock query, with its status and body); and
an upstream response with zero matching stock records is not an error but
yields quantity 0, unavailable. -/
theorem checkStock_error_iff_upstream :
    (∀ st sku now1 now2 nowTok now3 td resp e,
        (checkStock st sku now1 now2 nowTok now3 (.ok td) (.ok resp)).1 ≠
          .error e) ∧
    (∀ st sku now1 now2 nowTok now3 tf af e,
        (checkStock st sku now1 now2 nowTok now3 tf af).1 = .error e →
        (∃ s b, e = .authError s b ∧ tf = .error (s, b)) ∨
        (∃ s b, e = .apiError s b ∧ af = .error (s, b))) ∧
    (∀ st sku now1 now2 nowTok now3 td,
        st.inflightStock sku = false →
        (∀ c, st.stockCache sku = some c → c.expiresAt ≤ now1) →
        (∀ d, st.storage.stock sku = some d → d.expiresAt ≤ now2) →
        (checkStock st sku now1 now2 nowTok now3 (.ok td) (.ok ⟨some []⟩)).1 =
          .ok ⟨sku, 0, false⟩ .upstream) := by
  refine ⟨?_, ?_, ?_⟩
  · intro st sku now1 now2 nowTok now3 td resp e hr
    rcases checkStock_spec st sku now1 now2 nowTok now3 (.ok td) (.ok resp) with
      ⟨_, heq⟩ | ⟨c, _, _, heq⟩ | ⟨d, _, _, heq⟩ |
      ⟨e', hfe, hout, _⟩ | ⟨resp', _, hout, _⟩
    · rw [heq] at hr
      exact absurd hr (by simp)
    · rw [heq] at hr
      exact absurd hr (by simp)
    · rw [heq] at hr
      exact absurd hr (by simp)
    · rcases fetchStock_error _ _ _ _ _ _ hfe with ⟨s, b, _, htf⟩ | ⟨s, b, _, haf⟩
      · exact Except.noConfusion htf
      · exact Except.noConfusion haf
    · rw [hout] at hr
      exact absurd hr (by simp)
  · intro st sku now1 now2 nowTok now3 tf af e hr
    rcases checkStock_spec st sku now1 now2 nowTok now3 tf af with
      ⟨_, heq⟩ | ⟨c, _, _, heq⟩ | ⟨d, _, _, heq⟩ |
      ⟨e', hfe, hout, _⟩ | ⟨resp', _, hout, _⟩
    · rw [heq] at hr
      exact absurd hr (by simp)
    · rw [heq] at hr
      exact absurd hr (by simp)
    · rw [heq] at hr
      exact absurd hr (by simp)
    · rw [hout] at hr
      injection hr with h1
      exact h1 ▸ fetchStock_error _ _ _ _ _ _ hfe
    · rw [hout] at hr
      exact absurd hr (by simp)
  · intro st sku now1 now2 nowTok now3 td hinf hmem hstor
    have h := checkStock_quantity_aggregation st sku now1 now2 nowTok now3 td []
      hinf hmem hstor
    simpa using h

/-- Witness for C7 at concrete inputs: successful oracles yield no error;
a failing stock query propagates as a typed API error; an empty record
array yields quantity 0, unavailable. -/
theorem checkStock_error_iff_upstream_witness :
    ((checkStock emptyState "X" 0 0 0 0 (.ok ⟨"tok", 3600⟩)
         (.ok ⟨some []⟩)).1 ≠ .error (.apiError 500 "boom")) ∧
    ((∃ s b, UpstreamError.apiError 500 "boom" = .authError s b ∧
         (Except.ok ⟨"tok", 3600⟩ : Except (Nat × String) TokenResponse) =
           .error (s, b)) ∨
     (∃ s b, UpstreamError.apiError 500 "boom" = .apiError s b ∧
         (Except.error (500, "boom") :
           Except (Nat × String) StockItemsResponse) = .error (s, b))) ∧
    (checkStock emptyState "X" 0 0 0 0 (.ok ⟨"tok", 3600⟩)
        (.ok ⟨some []⟩)).1 = .ok ⟨"X", 0, false⟩ .upstream := by
  refine ⟨?_, ?_, ?_⟩
  · exact checkStock_error_iff_upstream.1 emptyState "X" 0 0 0 0
      ⟨"tok", 3600⟩ ⟨some []⟩ (.apiError 500 "boom")
  · exact checkStock_error_iff_upstream.2.1 emptyState "X" 0 0 0 0
      (.ok ⟨"tok", 3600⟩) (.error (500, "boom")) (.apiError 500 "boom")
      (by decide)
  · exact checkStock_error_iff_upstream.2.2 emptyState "X" 0 0 0 0
      ⟨"tok", 3600⟩ rfl
      (by intro c hc; exact absurd hc (by simp [emptyState]))
      (by intro d hd; exact absurd hd (by simp [emptyState]))

/-- Instance of the map-update lemma for non-negative quantities. -/
theorem mapWF_set_nonneg (m : String → Option CacheEntry) (k : String)
    (v : CacheEntry)
    (hm : ∀ k' c, m k' = some c → 0 ≤ c.data.quantity)
    (hv : 0 ≤ v.data.quantity) :
    ∀ k' c, setEntry m k v k' = some c → 0 ≤ c.data.quantity :=
  @mapWF_set (fun _ r => 0 ≤ r.quantity) m k v hm hv

/-- Instance of the map-update lemma for key consistency. -/
theorem mapWF_set_key (m : String → Option CacheEntry) (k : String)
    (v : CacheEntry)
    (hm : ∀ k' c, m k' = some c → c.data.skuCode = k')
    (hv : v.data.skuCode = k) :
    ∀ k' c, setEntry m k v k' = some c → c.data.skuCode = k' :=
  @mapWF_set (fun k' r => r.skuCode = k') m k v hm hv

/-- Non-negativity of both tiers transports along tier equality. -/
theorem nonnegWF_of_eq (st st' : DOState)
    (hc : st'.stockCache = st.stockCache)
    (hs : st'.storage.stock = st.storage.stock)
    (h : NonnegWF st) : NonnegWF st' :=
  @stockWF_of_eq (fun _ r => 0 ≤ r.quantity) st st' hc hs h

/-- Key consistency of both tiers transports along tier equality. -/
theorem keyWF_of_eq (st st' : DOState)
    (hc : st'.stockCache = st.stockCache)
    (hs : st'.storage.stock = st.storage.stock)
    (h : KeyWF st) : KeyWF st' :=
  @stockWF_of_eq (fun k r => r.skuCode = k) st st' hc hs h

/-- C8: availability always equals the positivity of the quantity.  If
every entry of both cache tiers is consistent, then every successful
`checkStock` result is consistent and both tiers remain consistent after
the call (so the coordinator never stores or returns an availability flag
inconsistent with the quantity). -/
theorem checkStock_avail_invariant
    (st : DOState) (sku : String) (now1 now2 nowTok now3 : Nat)
    (tf : Except (Nat × String) TokenResponse)
    (af : Except (Nat × String) StockItemsResponse)
    (hwf : AvailWF st) :
    (∀ r t, (checkStock st sku now1 now2 nowTok now3 tf af).1 = .ok r t →
       AvailOK r) ∧
    AvailWF (checkStock st sku now1 now2 nowTok now3 tf af).2.1 := by
  rcases checkStock_spec st sku now1 now2 nowTok now3 tf af with
    ⟨_, heq⟩ | ⟨c, hc, _, heq⟩ | ⟨d, hd, _, heq⟩ |
    ⟨e, _, hout, hcache, hstor, _, _⟩ | ⟨resp, _, hout, hcache, hstor, _, _⟩
  · rw [heq]
    exact ⟨fun r t hr => absurd hr (by simp), hwf⟩
  · rw [heq]
    refine ⟨?_, hwf⟩
    intro r t hr
    injection hr with h1 h2
    exact h1 ▸ hwf.1 sku c hc
  · rw [heq]
    refine ⟨?_, ?_⟩
    · intro r t hr
      injection hr with h1 h2
      exact h1 ▸ hwf.2 sku d hd
    · exact ⟨mapWF_set st.stockCache sku d hwf.1 (hwf.2 sku d hd), hwf.2⟩
  · refine ⟨?_, ?_⟩
    · intro r t hr
      rw [hout] at hr
      exact absurd hr (by simp)
    · exact stockWF_of_eq st _ hcache hstor hwf
  · refine ⟨?_, ?_⟩
    · intro r t hr
      rw [hout] at hr
      injection hr with h1 h2
      exact h1 ▸ aggregateStock_availOK sku resp
    · constructor
      · rw [hcache]
        exact mapWF_set st.stockCache sku _ hwf.1 (aggregateStock_availOK sku resp)
      · rw [hstor]
        exact mapWF_set st.storage.stock sku _ hwf.2 (aggregateStock_availOK sku resp)

/-- Witness for C8 on the empty state with an upstream fetch: the returned
result is consistent and the post-state tiers are consistent. -/
theorem checkStock_avail_invariant_witness :
    (∀ r t,
       (checkStock emptyState "X" 0 0 0 0 (.ok ⟨"tok", 3600⟩)
           (.ok ⟨some [⟨"a", ⟨"X", some 3⟩⟩]⟩)).1 = .ok r t → AvailOK r) ∧
    AvailWF (checkStock emptyState "X" 0 0 0 0 (.ok ⟨"tok", 3600⟩)
        (.ok ⟨some [⟨"a", ⟨"X", some 3⟩⟩]⟩)).2.1 := by
  exact checkStock_avail_invariant emptyState "X" 0 0 0 0 _ _
    ⟨by intro k c h; exact absurd h (by simp [emptyState]),
     by intro k c h; exact absurd h (by simp [emptyState])⟩

/-- C9 counterexample: the claim quantifies over every upstream
stock-items response, but a response whose single record carries a
negative quantity makes a successful `checkStock` return that negative
quantity unchanged: the source sums `item.attributes.quantity || 0`
without clamping. -/
theorem checkStock_nonneg_counterexample :
    (checkStock emptyState "X" 0 0 0 0 (.ok ⟨"tok", 3600⟩)
        (.ok ⟨some [⟨"a", ⟨"X", some (-1)⟩⟩]⟩)).1 =
      .ok ⟨"X", -1, false⟩ .upstream ∧ ((-1 : Int) < 0) := by
  constructor
  · decide
  · decide

/-- C9 amended: when every record of the upstream response carries an
absent or non-negative quantity, and every entry of both cache tiers has
a non-negative quantity, a successful `checkStock` returns a non-negative
integer quantity and both tiers keep only non-negative quantities. -/
theorem checkStock_nonneg_amended
    (st : DOState) (sku : String) (now1 now2 nowTok now3 : Nat)
    (tf : Except (Nat × String) TokenResponse)
    (af : Except (Nat × String) StockItemsResponse)
    (hwf : NonnegWF st)
    (hresp : ∀ resp, af = .ok resp → ∀ items, resp.data = some items →
        ∀ it ∈ items, 0 ≤ it.attributes.quantity.getD 0) :
    (∀ r t, (checkStock st sku now1 now2 nowTok now3 tf af).1 = .ok r t →
       0 ≤ r.quantity) ∧
    NonnegWF (checkStock st sku now1 now2 nowTok now3 tf af).2.1 := by
  rcases checkStock_spec st sku now1 now2 nowTok now3 tf af with
    ⟨_, heq⟩ | ⟨c, hc, _, heq⟩ | ⟨d, hd, _, heq⟩ |
    ⟨e, _, hout, hcache, hstor, _, _⟩ | ⟨resp, haf, hout, hcache, hstor, _, _⟩
  · rw [heq]
    exact ⟨fun r t hr => absurd hr (by simp), hwf⟩
  · rw [heq]
    refine ⟨?_, hwf⟩
    intro r t hr
    injection hr with h1 h2
    exact h1 ▸ hwf.1 sku c hc
  · rw [heq]
    refine ⟨?_, ?_⟩
    · intro r t hr
      injection hr with h1 h2
      exact h1 ▸ hwf.2 sku d hd
    · exact ⟨mapWF_set_nonneg st.stockCache sku d hwf.1 (hwf.2 sku d hd), hwf.2⟩
  · refine ⟨?_, ?_⟩
    · intro r t hr
      rw [hout] at hr
      exact absurd hr (by simp)
    · exact nonnegWF_of_eq st _ hcache hstor hwf
  · have hnn : 0 ≤ (aggregateStock sku resp).quantity :=
      aggregateStock_nonneg sku resp (hresp resp haf)
    refine ⟨?_, ?_⟩
    · intro r t hr
      rw [hout] at hr
      injection hr with h1 h2
      exact h1 ▸ hnn
    · constructor
      · rw [hcache]
        exact mapWF_set_nonneg st.stockCache sku _ hwf.1 hnn
      · rw [hstor]
        exact mapWF_set_nonneg st.storage.stock sku _ hwf.2 hnn

/-- Witness for the amended C9 on the empty state with a non-negative
upstream response. -/
theorem checkStock_nonneg_amended_witness :
    (∀ r t,
       (checkStock emptyState "X" 0 0 0 0 (.ok ⟨"tok", 3600⟩)
           (.ok ⟨some [⟨"a", ⟨"X", some 3⟩⟩]⟩)).1 = .ok r t →
       0 ≤ r.quantity) ∧
    NonnegWF (checkStock emptyState "X" 0 0 0 0 (.ok ⟨"tok", 3600⟩)
        (.ok ⟨some [⟨"a", ⟨"X", some 3⟩⟩]⟩)).2.1 := by
  refine checkStock_nonneg_amended emptyState "X" 0 0 0 0 _ _
    ⟨by intro k c h; exact absurd h (by simp [emptyState]),
     by intro k c h; exact absurd h (by simp [emptyState])⟩ ?_
  intro resp hresp items hitems it hit
  injection hresp with h1
  subst h1
  simp at hitems
  subst hitems
  simp at hit
  rw [hit]
  decide

/-- C10: every successful `checkStock sku` call returns a result whose
`skuCode` equals the requested key, whichever tier served it, provided
every cache entry stored under a key carries that key's SKU code; both
`checkStock` and the token operation preserve this key consistency. -/
theorem checkStock_skuCode_invariant
    (st : DOState) (sku : String) (now1 now2 nowTok now3 : Nat)
    (tf : Except (Nat × String) TokenResponse)
    (af : Except (Nat × String) StockItemsResponse)
    (hwf : KeyWF st) :
    (∀ r t, (checkStock st sku now1 now2 nowTok now3 tf af).1 = .ok r t →
       r.skuCode = sku) ∧
    KeyWF (checkStock st sku now1 now2 nowTok now3 tf af).2.1 ∧
    KeyWF (getCommerceLayerToken st now1 tf).2.1 := by
  have htok : KeyWF (getCommerceLayerToken st now1 tf).2.1 := by
    have hframe := getToken_stock_frame st now1 tf
    exact keyWF_of_eq st _ hframe.1 hframe.2.2 hwf
  rcases checkStock_spec st sku now1 now2 nowTok now3 tf af with
    ⟨_, heq⟩ | ⟨c, hc, _, heq⟩ | ⟨d, hd, _, heq⟩ |
    ⟨e, _, hout, hcache, hstor, _, _⟩ | ⟨resp, _, hout, hcache, hstor, _, _⟩
  · rw [heq]
    exact ⟨fun r t hr => absurd hr (by simp), hwf, htok⟩
  · rw [heq]
    refine ⟨?_, hwf, htok⟩
    intro r t hr
    injection hr with h1 h2
    exact h1 ▸ hwf.1 sku c hc
  · rw [heq]
    refine ⟨?_, ?_, htok⟩
    · intro r t hr
      injection hr with h1 h2
      exact h1 ▸ hwf.2 sku d hd
    · exact ⟨mapWF_set_key st.stockCache sku d hwf.1 (hwf.2 sku d hd), hwf.2⟩
  · refine ⟨?_, ?_, htok⟩
    · intro r t hr
      rw [hout] at hr
      exact absurd hr (by simp)
    · exact keyWF_of_eq st _ hcache hstor hwf
  · refine ⟨?_, ?_, htok⟩
    · intro r t hr
      rw [hout] at hr
      injection hr with h1 h2
      exact h1 ▸ aggregateStock_skuCode sku resp
    · constructor
      · rw [hcache]
        exact mapWF_set_key st.stockCache sku _ hwf.1 (aggregateStock_skuCode sku resp)
      · rw [hstor]
        exact mapWF_set_key st.storage.stock sku _ hwf.2 (aggregateStock_skuCode sku resp)

/-- Witness for C10 on the empty state with an upstream fetch for `X`. -/
theorem checkStock_skuCode_invariant_witness :
    (∀ r t,
       (checkStock emptyState "X" 0 0 0 0 (.ok ⟨"tok", 3600⟩)
           (.ok ⟨some [⟨"a", ⟨"X", some 3⟩⟩]⟩)).1 = .ok r t →
       r.skuCode = "X") ∧
    KeyWF (checkStock emptyState "X" 0 0 0 0 (.ok ⟨"tok", 3600⟩)
        (.ok ⟨some [⟨"a", ⟨"X", some 3⟩⟩]⟩)).2.1 ∧
    KeyWF (getCommerceLayerToken emptyState 0
        (.ok ⟨"tok", 3600⟩ : Except (Nat × String) TokenResponse)).2.1 := by
  exact checkStock_skuCode_invariant emptyState "X" 0 0 0 0 _ _
    ⟨by intro k c h; exact absurd h (by simp [emptyState]),
     by intro k c h; exact absurd h (by simp [emptyState])⟩

/-!
Small-step concurrency model of `checkStock` for one fixed SKU key.

A configuration holds the per-key slice of the coordinator state (memory
entry, durable entry, inflight entry) plus one thread per concurrent
`checkStock` call for that key.  Each transition is one synchronous
segment of the source between `await` suspension points:

* `deliver` — the call's first segment (source steps 1-3 up to the
  `ctx.storage.get` await): return the inflight promise if present, else
  return a fresh memory entry, else suspend on the durable read.  The
  Durable Objects runtime's input gates defer delivery of new events
  while a storage operation is pending, so this step requires that no
  thread is suspended on a storage operation.
* `getDone` — the durable read completes: a fresh durable record is
  promoted and returned; otherwise the fetch promise is created and
  registered in the inflight map before the thread suspends on it
  (`fetchStockFromAPI` runs synchronously only up to its first await, and
  `inflightStock.set` follows before control returns to the event loop).
* `settle` — the upstream fetch resolves and the registering thread's
  continuation runs (promise continuations are microtasks, which run
  before any further event delivery): on success the memory tier is
  written and the thread suspends on the durable put; on failure the
  source's `finally` removes the inflight entry and the error is
  rethrown.
* `putDone` — the durable put completes; the `finally` removes the
  inflight entry and the call returns.
* `joinResume` — a call that had returned an already-inflight promise
  observes that promise's settled outcome.

The upstream fetch outcomes are an oracle indexed by fetch id; fetch ids
count the upstream stock queries actually issued.  Every step carries a
`Date.now()` value not smaller than the configuration clock.
-/

deriving instance DecidableEq for Except

/-- State of one `checkStock` call between suspension points. -/
inductive TS where
  | start
  | waitGet
  | waitFetch (fid : Nat)
  | joined (fid : Nat)
  | waitPut (e : CacheEntry)
  | done (o : Except UpstreamError StockResult)
deriving DecidableEq, Repr

/-- Per-key configuration: thread states, the two cache tiers' entries
for the key, the inflight entry, the pending and issued upstream fetches,
and the clock (largest `Date.now()` observed). -/
structure Config (n : Nat) where
  th : Fin n → TS
  mem : Option CacheEntry
  stor : Option CacheEntry
  inflight : Option Nat
  pending : List Nat
  fired : Nat
  clock : Nat

/-- Threads suspended on a durable-storage operation (read or write). -/
def isStorageWait : TS → Bool
  | TS.waitGet => true
  | TS.waitPut _ => true
  | _ => false

/-- Input gate of the Durable Objects runtime: new events are delivered
only while no storage operation is pending. -/
def gateOpen {n : Nat} (c : Config n) : Prop :=
  ∀ i, isStorageWait (c.th i) = false

instance {n : Nat} (c : Config n) : Decidable (gateOpen c) := by
  unfold gateOpen
  infer_instance

/-- First synchronous segment of `checkStock` (source steps 1-3 up to the
storage read): join the inflight promise, or return a fresh memory entry,
or suspend on the durable-store read. -/
def deliverStep {n : Nat} (c : Config n) (i : Fin n) (t : Nat) : Config n :=
  match c.inflight with
  | some fid => { c with th := Function.update c.th i (TS.joined fid), clock := t }
  | none =>
      match c.mem with
      | some e =>
          if t < e.expiresAt then
            { c with th := Function.update c.th i (TS.done (.ok e.data)), clock := t }
          else
            { c with th := Function.update c.th i TS.waitGet, clock := t }
      | none => { c with th := Function.update c.th i TS.waitGet, clock := t }

/-- Registration of a fresh upstream fetch (source step 4 start): the
promise is created, the inflight entry is set, the thread suspends on the
fetch.  The new fetch id is the query counter. -/
def registerFetch {n : Nat} (c : Config n) (i : Fin n) (t : Nat) : Config n :=
  { c with
      th := Function.update c.th i (TS.waitFetch c.fired),
      inflight := some c.fired,
      pending := c.fired :: c.pending,
      fired := c.fired + 1,
      clock := t }

/-- The durable read completes (source step 3 resume): promote and return
a fresh durable record, otherwise fall through to the upstream fetch. -/
def getDoneStep {n : Nat} (c : Config n) (i : Fin n) (t : Nat) : Config n :=
  match c.stor with
  | some e =>
      if t < e.expiresAt then
        { c with
            th := Function.update c.th i (TS.done (.ok e.data)),
            mem := some e,
            clock := t }
      else registerFetch c i t
  | none => registerFetch c i t

/-- The upstream fetch `fid` settles and the registering thread resumes:
on success the memory tier receives the entry with a 60-second TTL and
the thread suspends on the durable put; on failure the `finally` clause
removes the inflight entry and the error propagates. -/
def settleStep {n : Nat} (oracle : Nat → Except UpstreamError StockResult)
    (c : Config n) (i : Fin n) (fid : Nat) (t : Nat) : Config n :=
  match oracle fid with
  | .ok r =>
      { c with
          th := Function.update c.th i (TS.waitPut ⟨r, t + 60000⟩),
          mem := some ⟨r, t + 60000⟩,
          pending := c.pending.erase fid,
          clock := t }
  | .error e =>
      { c with
          th := Function.update c.th i (TS.done (.error e)),
          inflight := none,
          pending := c.pending.erase fid,
          clock := t }

/-- The durable put completes: the durable tier receives the entry, the
`finally` clause removes the inflight entry, the call returns. -/
def putDoneStep {n : Nat} (c : Config n) (i : Fin n) (e : CacheEntry)
    (t : Nat) : Config n :=
  { c with
      th := Function.update c.th i (TS.done (.ok e.data)),
      stor := some e,
      inflight := none,
      clock := t }

/-- A joined call observes the settled outcome of the promise it
returned. -/
def joinResumeStep {n : Nat} (oracle : Nat → Except UpstreamError StockResult)
    (c : Config n) (i : Fin n) (fid : Nat) (t : Nat) : Config n :=
  { c with th := Function.update c.th i (TS.done (oracle fid)), clock := t }

/-- Transition labels of the per-key model. -/
inductive Label where
  | deliver
  | getDone
  | settle
  | putDone
  | joinResume
deriving DecidableEq, Repr

/-- One scheduler step of the per-key model. -/
inductive Step (oracle : Nat → Except UpstreamError StockResult) {n : Nat} :
    Config n → Label → Config n → Prop where
  | deliver (c : Config n) (i : Fin n) (t : Nat)
      (hth : c.th i = TS.start) (hgate : gateOpen c) (ht : c.clock ≤ t) :
      Step oracle c .deliver (deliverStep c i t)
  | getDone (c : Config n) (i : Fin n) (t : Nat)
      (hth : c.th i = TS.waitGet) (ht : c.clock ≤ t) :
      Step oracle c .getDone (getDoneStep c i t)
  | settle (c : Config n) (i : Fin n) (fid t : Nat)
      (hth : c.th i = TS.waitFetch fid) (hp : fid ∈ c.pending)
      (ht : c.clock ≤ t) :
      Step oracle c .settle (settleStep oracle c i fid t)
  | putDone (c : Config n) (i : Fin n) (e : CacheEntry) (t : Nat)
      (hth : c.th i = TS.waitPut e) (ht : c.clock ≤ t) :
      Step oracle c .putDone (putDoneStep c i e t)
  | joinResume (c : Config n) (i : Fin n) (fid t : Nat)
      (hth : c.th i = TS.joined fid) (hsettled : fid ∉ c.pending)
      (hfid : fid < c.fired) (ht : c.clock ≤ t) :
      Step oracle c .joinResume (joinResumeStep oracle c i fid t)

/-- Finite execution of the per-key model. -/
inductive Path (oracle : Nat → Except UpstreamError StockResult) {n : Nat} :
    Config n → Config n → Prop where
  | refl (c : Config n) : Path oracle c c
  | snoc (a b c' : Config n) (l : Label) :
      Path oracle a b → Step oracle b l c' → Path oracle a c'

/-- Execution in which every `settle` fires only after every call has
taken its first step: this is the claim's scoping "N concurrent calls
issued before the upstream fetch completes". -/
inductive GPath (oracle : Nat → Except UpstreamError StockResult) {n : Nat} :
    Config n → Config n → Prop where
  | refl (c : Config n) : GPath oracle c c
  | snoc (a b c' : Config n) (l : Label) :
      GPath oracle a b → Step oracle b l c' →
      (l = Label.settle → ∀ i, b.th i ≠ TS.start) → GPath oracle a c'

/-- Initial configuration: every call queued, both tiers missing or
already expired, no inflight entry, no fetch issued. -/
def InitOK {n : Nat} (c : Config n) : Prop :=
  (∀ i, c.th i = TS.start) ∧
  (∀ e, c.mem = some e → e.expiresAt ≤ c.clock) ∧
  (∀ e, c.stor = some e → e.expiresAt ≤ c.clock) ∧
  c.inflight = none ∧ c.pending = [] ∧ c.fired = 0

/-- Structural invariant of all reachable configurations: at most one
upstream fetch pending; a pending fetch is the registered inflight entry;
at most one thread suspended on a storage operation; a thread suspended
on the durable read excludes an inflight entry; a thread suspended on the
durable put excludes a pending fetch. -/
def Inv {n : Nat} (c : Config n) : Prop :=
  c.pending.length ≤ 1 ∧
  (∀ fid, fid ∈ c.pending → c.inflight = some fid) ∧
  (∀ i j : Fin n, isStorageWait (c.th i) = true →
     isStorageWait (c.th j) = true → i = j) ∧
  (∀ i, c.th i = TS.waitGet → c.inflight = none) ∧
  (∀ i e, c.th i = TS.waitPut e → c.pending = [])

/-- Updating a thread to a non-storage-waiting state maps post-step
storage waiters to pre-step storage waiters. -/
theorem storageWait_update_false {n : Nat} (th : Fin n → TS) (i : Fin n)
    (v : TS) (hv : isStorageWait v = false) (j : Fin n)
    (h : isStorageWait (Function.update th i v j) = true) :
    isStorageWait (th j) = true ∧ j ≠ i := by
  rcases eq_or_ne j i with rfl | hne
  · rw [Function.update_same] at h
    rw [hv] at h
    cases h
  · rw [Function.update_noteq hne] at h
    exact ⟨h, hne⟩

/-- Uniqueness of storage waiters is preserved when the updated thread
does not become a storage waiter. -/
theorem uniqueWait_update_false {n : Nat} (th : Fin n → TS) (i : Fin n)
    (v : TS) (hv : isStorageWait v = false)
    (hC : ∀ k l : Fin n, isStorageWait (th k) = true →
       isStorageWait (th l) = true → k = l) :
    ∀ k l : Fin n, isStorageWait (Function.update th i v k) = true →
      isStorageWait (Function.update th i v l) = true → k = l := by
  intro k l hk hl
  obtain ⟨hk1, -⟩ := storageWait_update_false th i v hv k hk
  obtain ⟨hl1, -⟩ := storageWait_update_false th i v hv l hl
  exact hC k l hk1 hl1

/-- Uniqueness of storage waiters after an update, when every pre-step
storage waiter is the updated thread itself. -/
theorem uniqueWait_update_of_none {n : Nat} (th : Fin n → TS) (i : Fin n)
    (v : TS) (hno : ∀ k, isStorageWait (th k) = true → k = i) :
    ∀ k l : Fin n, isStorageWait (Function.update th i v k) = true →
      isStorageWait (Function.update th i v l) = true → k = l := by
  intro k l hk hl
  have hki : k = i := by
    rcases eq_or_ne k i with rfl | hne
    · rfl
    · rw [Function.update_noteq hne] at hk
      exact hno k hk
  have hli : l = i := by
    rcases eq_or_ne l i with rfl | hne
    · rfl
    · rw [Function.update_noteq hne] at hl
      exact hno l hl
  rw [hki, hli]

/-- Case analysis on a thread-map update hitting a given value. -/
theorem update_eq_cases {n : Nat} (th : Fin n → TS) (i : Fin n) (v w : TS)
    (j : Fin n) (h : Function.update th i v j = w) :
    (j = i ∧ v = w) ∨ (j ≠ i ∧ th j = w) := by
  rcases eq_or_ne j i with rfl | hne
  · rw [Function.update_same] at h
    exact Or.inl ⟨rfl, h⟩
  · rw [Function.update_noteq hne] at h
    exact Or.inr ⟨hne, h⟩

/-- If no fetch is registered, none is pending. -/
theorem pending_nil_of_inflight_none {n : Nat} (c : Config n)
    (hB : ∀ fid, fid ∈ c.pending → c.inflight = some fid)
    (hnone : c.inflight = none) : c.pending = [] := by
  cases hp : c.pending with
  | nil => rfl
  | cons f l =>
      have := hB f (by rw [hp]; exact List.mem_cons_self f l)
      rw [hnone] at this
      cases this

/-- A member of a list of length at most one is its only element. -/
theorem eq_singleton_of_mem_length_le_one {l : List Nat} {a : Nat}
    (h : a ∈ l) (hl : l.length ≤ 1) : l = [a] := by
  cases l with
  | nil => cases h
  | cons x xs =>
      cases xs with
      | cons y ys => simp at hl
      | nil =>
          rcases List.mem_singleton.mp h with rfl
          rfl

/-- Reduction of the delivery step when an inflight entry exists. -/
theorem deliverStep_eq_join {n : Nat} (c : Config n) (i : Fin n) (t fid : Nat)
    (hinf : c.inflight = some fid) :
    deliverStep c i t =
      { c with th := Function.update c.th i (TS.joined fid), clock := t } := by
  unfold deliverStep
  rw [hinf]

/-- Reduction of the delivery step on a fresh memory entry. -/
theorem deliverStep_eq_memhit {n : Nat} (c : Config n) (i : Fin n) (t : Nat)
    (e : CacheEntry) (hinf : c.inflight = none) (hm : c.mem = some e)
    (hfresh : t < e.expiresAt) :
    deliverStep c i t =
      { c with th := Function.update c.th i (TS.done (.ok e.data)), clock := t } := by
  unfold deliverStep
  rw [hinf, hm]
  dsimp only
  rw [if_pos hfresh]

/-- Reduction of the delivery step when no inflight entry exists and the
memory tier misses or is stale: the call suspends on the durable read. -/
theorem deliverStep_eq_waitGet {n : Nat} (c : Config n) (i : Fin n) (t : Nat)
    (hinf : c.inflight = none)
    (hm : ∀ e, c.mem = some e → ¬ t < e.expiresAt) :
    deliverStep c i t =
      { c with th := Function.update c.th i TS.waitGet, clock := t } := by
  unfold deliverStep
  rw [hinf]
  rcases hme : c.mem with _ | e
  · rfl
  · dsimp only
    rw [if_neg (hm e hme)]

/-- Reduction of the durable-read completion on a fresh durable entry. -/
theorem getDoneStep_eq_storhit {n : Nat} (c : Config n) (i : Fin n) (t : Nat)
    (e : CacheEntry) (hs : c.stor = some e) (hfresh : t < e.expiresAt) :
    getDoneStep c i t =
      { c with th := Function.update c.th i (TS.done (.ok e.data)),
               mem := some e, clock := t } := by
  unfold getDoneStep
  rw [hs]
  dsimp only
  rw [if_pos hfresh]

/-- Reduction of the durable-read completion when the durable tier misses
or is stale: the upstream fetch is registered. -/
theorem getDoneStep_eq_register {n : Nat} (c : Config n) (i : Fin n) (t : Nat)
    (hs : ∀ e, c.stor = some e → ¬ t < e.expiresAt) :
    getDoneStep c i t = registerFetch c i t := by
  unfold getDoneStep
  rcases hse : c.stor with _ | e
  · rfl
  · dsimp only
    rw [if_neg (hs e hse)]

/-- Reduction of the settlement step on a successful fetch. -/
theorem settleStep_eq_ok {n : Nat}
    (oracle : Nat → Except UpstreamError StockResult) (c : Config n)
    (i : Fin n) (fid t : Nat) (r : StockResult) (ho : oracle fid = .ok r) :
    settleStep oracle c i fid t =
      { c with th := Function.update c.th i (TS.waitPut ⟨r, t + 60000⟩),
               mem := some ⟨r, t + 60000⟩,
               pending := c.pending.erase fid, clock := t } := by
  unfold settleStep
  rw [ho]

/-- Reduction of the settlement step on a failed fetch. -/
theorem settleStep_eq_err {n : Nat}
    (oracle : Nat → Except UpstreamError StockResult) (c : Config n)
    (i : Fin n) (fid t : Nat) (e : UpstreamError) (ho : oracle fid = .error e) :
    settleStep oracle c i fid t =
      { c with th := Function.update c.th i (TS.done (.error e)),
               inflight := none,
               pending := c.pending.erase fid, clock := t } := by
  unfold settleStep
  rw [ho]

/-- The structural invariant is preserved by every step of the per-key
model. -/
theorem inv_step (oracle : Nat → Except UpstreamError StockResult) {n : Nat}
    {b c : Config n} {l : Label}
    (h : Step oracle b l c) (hb : Inv b) : Inv c := by
  obtain ⟨hA, hB, hC, hD, hE⟩ := hb
  cases h with
  | deliver i t hth hgate ht =>
      rcases hinf : b.inflight with _ | fid
      · by_cases hm : ∃ e, b.mem = some e ∧ t < e.expiresAt
        · obtain ⟨e, hme, hfresh⟩ := hm
          rw [deliverStep_eq_memhit b i t e hinf hme hfresh]
          refine ⟨hA, hB, ?_, ?_, ?_⟩
          · exact uniqueWait_update_false b.th i _ rfl hC
          · intro k hk
            rcases update_eq_cases b.th i _ TS.waitGet k hk with
              ⟨rfl, hv⟩ | ⟨hne, hv⟩
            · cases hv
            · exact hD k hv
          · intro k e2 hk
            rcases update_eq_cases b.th i _ (TS.waitPut e2) k hk with
              ⟨rfl, hv⟩ | ⟨hne, hv⟩
            · cases hv
            · exact hE k e2 hv
        · rw [deliverStep_eq_waitGet b i t hinf
            (fun e he hf => hm ⟨e, he, hf⟩)]
          refine ⟨hA, hB, ?_, ?_, ?_⟩
          · refine uniqueWait_update_of_none b.th i TS.waitGet ?_
            intro k hk
            rw [hgate k] at hk
            cases hk
          · intro k hk
            exact hinf
          · intro k e2 hk
            rcases update_eq_cases b.th i TS.waitGet (TS.waitPut e2) k hk with
              ⟨rfl, hv⟩ | ⟨hne, hv⟩
            · cases hv
            · have hg := hgate k
              rw [hv] at hg
              cases hg
      · rw [deliverStep_eq_join b i t fid hinf]
        refine ⟨hA, hB, ?_, ?_, ?_⟩
        · exact uniqueWait_update_false b.th i _ rfl hC
        · intro k hk
          rcases update_eq_cases b.th i _ TS.waitGet k hk with
            ⟨rfl, hv⟩ | ⟨hne, hv⟩
          · cases hv
          · have h1 := hD k hv
            rw [hinf] at h1
            cases h1
        · intro k e2 hk
          rcases update_eq_cases b.th i _ (TS.waitPut e2) k hk with
            ⟨rfl, hv⟩ | ⟨hne, hv⟩
          · cases hv
          · exact hE k e2 hv
  | getDone i t hth ht =>
      have hnone : b.inflight = none := hD i hth
      have hpnil : b.pending = [] := pending_nil_of_inflight_none b hB hnone
      by_cases hs : ∃ e, b.stor = some e ∧ t < e.expiresAt
      · obtain ⟨e, hse, hfresh⟩ := hs
        rw [getDoneStep_eq_storhit b i t e hse hfresh]
        refine ⟨hA, hB, ?_, ?_, ?_⟩
        · exact uniqueWait_update_false b.th i _ rfl hC
        · intro k hk
          rcases update_eq_cases b.th i _ TS.waitGet k hk with
            ⟨rfl, hv⟩ | ⟨hne, hv⟩
          · cases hv
          · exact hD k hv
        · intro k e2 hk
          rcases update_eq_cases b.th i _ (TS.waitPut e2) k hk with
            ⟨rfl, hv⟩ | ⟨hne, hv⟩
          · cases hv
          · exact hE k e2 hv
      · rw [getDoneStep_eq_register b i t (fun e he hf => hs ⟨e, he, hf⟩)]
        unfold registerFetch
        refine ⟨?_, ?_, ?_, ?_, ?_⟩
        · rw [hpnil]
          simp
        · intro fid hfid
          rw [hpnil] at hfid
          rcases List.mem_singleton.mp hfid with rfl
          rfl
        · exact uniqueWait_update_false b.th i _ rfl hC
        · intro k hk
          rcases update_eq_cases b.th i _ TS.waitGet k hk with
            ⟨rfl, hv⟩ | ⟨hne, hv⟩
          · cases hv
          · exact absurd (hC k i (by rw [hv]; rfl) (by rw [hth]; rfl)) hne
        · intro k e2 hk
          rcases update_eq_cases b.th i _ (TS.waitPut e2) k hk with
            ⟨rfl, hv⟩ | ⟨hne, hv⟩
          · cases hv
          · exact absurd (hC k i (by rw [hv]; rfl) (by rw [hth]; rfl)) hne
  | settle i fid t hth hp ht =>
      have hsing : b.pending = [fid] := eq_singleton_of_mem_length_le_one hp hA
      have herase : b.pending.erase fid = [] := by
        rw [hsing]
        simp
      have hnowait : ∀ k, isStorageWait (b.th k) = true → False := by
        intro k hk
        cases hbk : b.th k with
        | start => rw [hbk] at hk; cases hk
        | waitFetch f => rw [hbk] at hk; cases hk
        | joined f => rw [hbk] at hk; cases hk
        | done o => rw [hbk] at hk; cases hk
        | waitGet =>
            have h1 := hD k hbk
            have h2 := hB fid hp
            rw [h1] at h2
            cases h2
        | waitPut e =>
            have h1 := hE k e hbk
            rw [h1] at hp
            cases hp
      rcases ho : oracle fid with e | r
      · rw [settleStep_eq_err oracle b i fid t e ho]
        refine ⟨?_, ?_, ?_, ?_, ?_⟩
        · rw [herase]
          simp
        · intro f hf
          rw [herase] at hf
          cases hf
        · exact uniqueWait_update_false b.th i _ rfl hC
        · intro k hk
          rfl
        · intro k e2 hk
          exact herase
      · rw [settleStep_eq_ok oracle b i fid t r ho]
        refine ⟨?_, ?_, ?_, ?_, ?_⟩
        · rw [herase]
          simp
        · intro f hf
          rw [herase] at hf
          cases hf
        · refine uniqueWait_update_of_none b.th i _ ?_
          intro k hk
          exact absurd (hnowait k hk) (fun hf => hf)
        · intro k hk
          rcases update_eq_cases b.th i _ TS.waitGet k hk with
            ⟨rfl, hv⟩ | ⟨hne, hv⟩
          · cases hv
          · exact absurd (hnowait k (by rw [hv]; rfl)) (fun hf => hf)
        · intro k e2 hk
          exact herase
  | putDone i e t hth ht =>
      have hpnil : b.pending = [] := hE i e hth
      unfold putDoneStep
      refine ⟨hA, ?_, ?_, ?_, ?_⟩
      · intro f hf
        rw [hpnil] at hf
        cases hf
      · exact uniqueWait_update_false b.th i _ rfl hC
      · intro k hk
        rfl
      · intro k e2 hk
        exact hpnil
  | joinResume i fid t hth hsettled hfid ht =>
      unfold joinResumeStep
      refine ⟨hA, hB, ?_, ?_, ?_⟩
      · exact uniqueWait_update_false b.th i _ rfl hC
      · intro k hk
        rcases update_eq_cases b.th i _ TS.waitGet k hk with
          ⟨rfl, hv⟩ | ⟨hne, hv⟩
        · cases hv
        · exact hD k hv
      · intro k e2 hk
        rcases update_eq_cases b.th i _ (TS.waitPut e2) k hk with
          ⟨rfl, hv⟩ | ⟨hne, hv⟩
        · cases hv
        · exact hE k e2 hv

/-- The initial configuration satisfies the structural invariant. -/
theorem init_inv {n : Nat} (c : Config n) (h : InitOK c) : Inv c := by
  obtain ⟨hth, hmem, hstor, hinf, hpend, hfired⟩ := h
  refine ⟨?_, ?_, ?_, ?_, ?_⟩
  · rw [hpend]
    simp
  · intro f hf
    rw [hpend] at hf
    cases hf
  · intro k l hk hl
    rw [hth k] at hk
    cases hk
  · intro k hk
    exact hinf
  · intro k e hk
    exact hpend

/-- The structural invariant holds along every execution. -/
theorem path_inv (oracle : Nat → Except UpstreamError StockResult) {n : Nat}
    {a c : Config n} (hp : Path oracle a c) (ha : Inv a) : Inv c := by
  induction hp with
  | refl => exact ha
  | snoc b c' l hpath hstep ih => exact inv_step oracle hstep ih

/-- A windowed execution is an execution. -/
theorem gpath_to_path (oracle : Nat → Except UpstreamError StockResult)
    {n : Nat} {a c : Config n} (hp : GPath oracle a c) : Path oracle a c := by
  induction hp with
  | refl => exact Path.refl a
  | snoc b c' l hpath hstep hwin ih => exact Path.snoc a b c' l ih hstep

/-- Pre-settlement phase of a windowed execution from stale caches:
either no fetch has been issued (threads queued or reading the durable
store) or exactly fetch 0 has been issued and is pending (threads queued,
joined to it, or the unique registering thread); both tiers stay stale
against the advancing clock. -/
def PhasePre {n : Nat} (c : Config n) : Prop :=
  (∀ e, c.mem = some e → e.expiresAt ≤ c.clock) ∧
  (∀ e, c.stor = some e → e.expiresAt ≤ c.clock) ∧
  ((c.fired = 0 ∧ c.pending = [] ∧ c.inflight = none ∧
      (∀ i, c.th i = TS.start ∨ c.th i = TS.waitGet)) ∨
   (c.fired = 1 ∧ c.pending = [0] ∧ c.inflight = some 0 ∧
      (∀ i, c.th i = TS.start ∨ c.th i = TS.joined 0 ∨ c.th i = TS.waitFetch 0) ∧
      (∀ i j, c.th i = TS.waitFetch 0 → c.th j = TS.waitFetch 0 → i = j)))

/-- Post-settlement phase: exactly one fetch was ever issued, none is
pending, and every thread is joined to fetch 0, writing back its
successful result, or done with its outcome. -/
def PhasePost (oracle : Nat → Except UpstreamError StockResult) {n : Nat}
    (c : Config n) : Prop :=
  c.fired = 1 ∧ c.pending = [] ∧
  (∀ i, c.th i = TS.joined 0 ∨
        (∃ e, c.th i = TS.waitPut e ∧ Except.ok e.data = oracle 0) ∨
        c.th i = TS.done (oracle 0))

/-- One step of a windowed execution preserves the phase disjunction. -/
theorem phase_step (oracle : Nat → Except UpstreamError StockResult) {n : Nat}
    {b c : Config n} {l : Label}
    (h : Step oracle b l c) (hInv : Inv b)
    (hwin : l = Label.settle → ∀ i, b.th i ≠ TS.start)
    (hph : PhasePre b ∨ PhasePost oracle b) :
    PhasePre c ∨ PhasePost oracle c := by
  obtain ⟨hA, hB, hC, hD, hE⟩ := hInv
  cases h with
  | deliver i t hth hgate ht =>
      rcases hph with ⟨hmem, hstor, hsub⟩ | ⟨hfired, hpend, hcl⟩
      · left
        have hstale : ∀ e, b.mem = some e → ¬ t < e.expiresAt := by
          intro e he hf
          have := hmem e he
          omega
        rcases hsub with ⟨hf0, hp0, hi0, hcl0⟩ | ⟨hf1, hp1, hi1, hcl1, huniq⟩
        · rw [deliverStep_eq_waitGet b i t hi0 hstale]
          refine ⟨?_, ?_, Or.inl ⟨hf0, hp0, hi0, ?_⟩⟩
          · intro e he
            exact le_trans (hmem e he) ht
          · intro e he
            exact le_trans (hstor e he) ht
          · intro k
            rcases eq_or_ne k i with rfl | hne
            · simp only [Function.update_same]
              exact Or.inr trivial
            · simp only [Function.update_noteq hne]
              exact hcl0 k
        · rw [deliverStep_eq_join b i t 0 hi1]
          refine ⟨?_, ?_, Or.inr ⟨hf1, hp1, hi1, ?_, ?_⟩⟩
          · intro e he
            exact le_trans (hmem e he) ht
          · intro e he
            exact le_trans (hstor e he) ht
          · intro k
            rcases eq_or_ne k i with rfl | hne
            · simp only [Function.update_same]
              exact Or.inr (Or.inl trivial)
            · simp only [Function.update_noteq hne]
              exact hcl1 k
          · intro k l2 hk hl
            rcases update_eq_cases b.th i _ _ k hk with ⟨rfl, hv⟩ | ⟨hnek, hvk⟩
            · cases hv
            · rcases update_eq_cases b.th i _ _ l2 hl with ⟨rfl, hv⟩ | ⟨hnel, hvl⟩
              · cases hv
              · exact huniq k l2 hvk hvl
      · exfalso
        rcases hcl i with h1 | ⟨e, h1, -⟩ | h1 <;> rw [hth] at h1 <;> cases h1
  | getDone i t hth ht =>
      rcases hph with ⟨hmem, hstor, hsub⟩ | ⟨hfired, hpend, hcl⟩
      · rcases hsub with ⟨hf0, hp0, hi0, hcl0⟩ | ⟨hf1, hp1, hi1, hcl1, huniq⟩
        · left
          have hstale : ∀ e, b.stor = some e → ¬ t < e.expiresAt := by
            intro e he hf
            have := hstor e he
            omega
          rw [getDoneStep_eq_register b i t hstale]
          unfold registerFetch
          rw [hf0, hp0]
          refine ⟨?_, ?_, Or.inr ⟨rfl, rfl, rfl, ?_, ?_⟩⟩
          · intro e he
            exact le_trans (hmem e he) ht
          · intro e he
            exact le_trans (hstor e he) ht
          · intro k
            rcases eq_or_ne k i with rfl | hne
            · simp only [Function.update_same]
              exact Or.inr (Or.inr trivial)
            · simp only [Function.update_noteq hne]
              rcases hcl0 k with h1 | h1
              · exact Or.inl h1
              · exact absurd (hC k i (by rw [h1]; rfl) (by rw [hth]; rfl)) hne
          · intro k l2 hk hl
            have hki : k = i := by
              rcases update_eq_cases b.th i _ _ k hk with ⟨rfl, -⟩ | ⟨hne, hvk⟩
              · rfl
              · rcases hcl0 k with h1 | h1 <;> rw [h1] at hvk <;> cases hvk
            have hli : l2 = i := by
              rcases update_eq_cases b.th i _ _ l2 hl with ⟨rfl, -⟩ | ⟨hne, hvl⟩
              · rfl
              · rcases hcl0 l2 with h1 | h1 <;> rw [h1] at hvl <;> cases hvl
            rw [hki, hli]
        · exfalso
          rcases hcl1 i with h1 | h1 | h1 <;> rw [hth] at h1 <;> cases h1
      · exfalso
        rcases hcl i with h1 | ⟨e, h1, -⟩ | h1 <;> rw [hth] at h1 <;> cases h1
  | settle i fid t hth hp ht =>
      right
      have hnostart := hwin rfl
      rcases hph with ⟨hmem, hstor, hsub⟩ | ⟨hfired, hpend, hcl⟩
      · rcases hsub with ⟨hf0, hp0, hi0, hcl0⟩ | ⟨hf1, hp1, hi1, hcl1, huniq⟩
        · rw [hp0] at hp
          cases hp
        · rw [hp1] at hp
          rcases List.mem_singleton.mp hp with rfl
          have hjoined : ∀ k, k ≠ i → b.th k = TS.joined 0 := by
            intro k hne
            rcases hcl1 k with h1 | h1 | h1
            · exact absurd h1 (hnostart k)
            · exact h1
            · exact absurd (huniq k i h1 hth) hne
          have herase : b.pending.erase 0 = [] := by
            rw [hp1]
            simp
          rcases ho : oracle 0 with e | r
          · rw [settleStep_eq_err oracle b i 0 t e ho]
            refine ⟨hf1, herase, ?_⟩
            intro k
            rcases eq_or_ne k i with rfl | hne
            · simp only [Function.update_same, ho]
              exact Or.inr (Or.inr trivial)
            · simp only [Function.update_noteq hne]
              exact Or.inl (hjoined k hne)
          · rw [settleStep_eq_ok oracle b i 0 t r ho]
            refine ⟨hf1, herase, ?_⟩
            intro k
            rcases eq_or_ne k i with rfl | hne
            · simp only [Function.update_same]
              exact Or.inr (Or.inl ⟨⟨r, t + 60000⟩, rfl, by rw [ho]⟩)
            · simp only [Function.update_noteq hne]
              exact Or.inl (hjoined k hne)
      · exfalso
        rw [hpend] at hp
        cases hp
  | putDone i e t hth ht =>
      rcases hph with ⟨hmem, hstor, hsub⟩ | ⟨hfired, hpend, hcl⟩
      · exfalso
        rcases hsub with ⟨-, -, -, hcl0⟩ | ⟨-, -, -, hcl1, -⟩
        · rcases hcl0 i with h1 | h1 <;> rw [hth] at h1 <;> cases h1
        · rcases hcl1 i with h1 | h1 | h1 <;> rw [hth] at h1 <;> cases h1
      · right
        have hok : Except.ok e.data = oracle 0 := by
          rcases hcl i with h1 | ⟨e2, h1, hok2⟩ | h1
          · rw [hth] at h1
            cases h1
          · rw [hth] at h1
            injection h1 with h2
            rw [h2]
            exact hok2
          · rw [hth] at h1
            cases h1
        unfold putDoneStep
        refine ⟨hfired, hpend, ?_⟩
        intro k
        rcases eq_or_ne k i with rfl | hne
        · simp only [Function.update_same, ← hok]
          exact Or.inr (Or.inr trivial)
        · simp only [Function.update_noteq hne]
          exact hcl k
  | joinResume i fid t hth hsettled hfid ht =>
      rcases hph with ⟨hmem, hstor, hsub⟩ | ⟨hfired, hpend, hcl⟩
      · exfalso
        rcases hsub with ⟨hf0, -, -, -⟩ | ⟨hf1, hp1, -, hcl1, -⟩
        · rw [hf0] at hfid
          cases hfid
        · have hfid0 : fid = 0 := by
            rcases hcl1 i with h1 | h1 | h1
            · rw [hth] at h1
              cases h1
            · rw [hth] at h1
              injection h1
            · rw [hth] at h1
              cases h1
          rw [hfid0, hp1] at hsettled
          exact hsettled (List.mem_singleton.mpr rfl)
      · right
        have hfid0 : fid = 0 := by
          rcases hcl i with h1 | ⟨e2, h1, -⟩ | h1
          · rw [hth] at h1
            injection h1
          · rw [hth] at h1
            cases h1
          · rw [hth] at h1
            cases h1
        unfold joinResumeStep
        refine ⟨hfired, hpend, ?_⟩
        intro k
        rcases eq_or_ne k i with rfl | hne
        · simp only [Function.update_same, hfid0]
          exact Or.inr (Or.inr trivial)
        · simp only [Function.update_noteq hne]
          exact hcl k

/-- Every windowed execution from an initial configuration stays in the
pre- or post-settlement phase. -/
theorem gpath_phase (oracle : Nat → Except UpstreamError StockResult)
    {n : Nat} {a c : Config n} (hinit : InitOK a) (hp : GPath oracle a c) :
    PhasePre c ∨ PhasePost oracle c := by
  induction hp with
  | refl =>
      obtain ⟨hth, hmem, hstor, hinf, hpend, hfired⟩ := hinit
      exact Or.inl ⟨hmem, hstor, Or.inl ⟨hfired, hpend, hinf,
        fun i => Or.inl (hth i)⟩⟩
  | snoc b c' l hpath hstep hwin ih =>
      exact phase_step oracle hstep
        (path_inv oracle (gpath_to_path oracle hpath) (init_inv a hinit))
        hwin ih

/-- C1: inflight-request deduplication.  For any number of concurrent
`checkStock` calls for one key, all issued (first segment run) before the
upstream fetch settles, starting from caches that miss or are stale:
once every call has settled, exactly one upstream stock query was
executed and every call resolved to the same outcome (the oracle's answer
to fetch 0, be it the same value or the same error); and along any
execution whatsoever, at most one upstream fetch for the key is in flight
at any time. -/
theorem checkStock_dedup (oracle : Nat → Except UpstreamError StockResult)
    {n : Nat} (init c : Config n) (hn : 0 < n)
    (hinit : InitOK init) (hpath : GPath oracle init c)
    (hdone : ∀ i, ∃ o, c.th i = TS.done o) :
    (c.fired = 1 ∧ ∀ i, c.th i = TS.done (oracle 0)) ∧
    (∀ mid, Path oracle init mid → mid.pending.length ≤ 1) := by
  constructor
  · rcases gpath_phase oracle hinit hpath with hpre | hpost
    · exfalso
      obtain ⟨-, -, hsub⟩ := hpre
      obtain ⟨o, ho⟩ := hdone ⟨0, hn⟩
      rcases hsub with ⟨-, -, -, hcl⟩ | ⟨-, -, -, hcl, -⟩
      · rcases hcl ⟨0, hn⟩ with h1 | h1 <;> rw [ho] at h1 <;> cases h1
      · rcases hcl ⟨0, hn⟩ with h1 | h1 | h1 <;> rw [ho] at h1 <;> cases h1
    · obtain ⟨hfired, hpend, hcl⟩ := hpost
      refine ⟨hfired, ?_⟩
      intro i
      obtain ⟨o, ho⟩ := hdone i
      rcases hcl i with h1 | ⟨e, h1, -⟩ | h1
      · rw [ho] at h1
        cases h1
      · rw [ho] at h1
        cases h1
      · exact h1
  · intro mid hmid
    exact (path_inv oracle hmid (init_inv init hinit)).1

/-- Oracle answering every upstream stock query with the same in-stock
result; used to exercise the deduplication theorem on a concrete trace. -/
def demoOracle : Nat → Except UpstreamError StockResult :=
  fun _ => .ok ⟨"s", 5, true⟩

/-- Two concurrent calls, cold caches. -/
def demoInit : Config 2 :=
  { th := fun _ => TS.start, mem := none, stor := none, inflight := none,
    pending := [], fired := 0, clock := 0 }

/-- Call 0 delivered: misses the tiers, suspends on the durable read. -/
def demoC1 : Config 2 := deliverStep demoInit 0 0

/-- Call 0's durable read misses: fetch 0 registered. -/
def demoC2 : Config 2 := getDoneStep demoC1 0 0

/-- Call 1 delivered during the fetch: joins the inflight entry. -/
def demoC3 : Config 2 := deliverStep demoC2 1 0

/-- Fetch 0 settles successfully: memory written, call 0 suspends on the
durable put. -/
def demoC4 : Config 2 := settleStep demoOracle demoC3 0 0 0

/-- The durable put completes: inflight cleared, call 0 done. -/
def demoC5 : Config 2 := putDoneStep demoC4 0 ⟨⟨"s", 5, true⟩, 60000⟩ 0

/-- Call 1 observes the settled promise: done with the same result. -/
def demoC6 : Config 2 := joinResumeStep demoOracle demoC5 1 0 0

/-- Witness for C1 on a concrete two-call interleaving: one upstream
query in total and both calls resolve to the same result. -/
theorem checkStock_dedup_witness :
    (demoC6.fired = 1 ∧ ∀ i, demoC6.th i = TS.done (demoOracle 0)) ∧
    (∀ mid, Path demoOracle demoInit mid → mid.pending.length ≤ 1) := by
  have hpath : GPath demoOracle demoInit demoC6 :=
    GPath.snoc demoInit demoC5 demoC6 .joinResume
      (GPath.snoc demoInit demoC4 demoC5 .putDone
        (GPath.snoc demoInit demoC3 demoC4 .settle
          (GPath.snoc demoInit demoC2 demoC3 .deliver
            (GPath.snoc demoInit demoC1 demoC2 .getDone
              (GPath.snoc demoInit demoInit demoC1 .deliver
                (GPath.refl demoInit)
                (Step.deliver demoInit 0 0 rfl (by decide) (by decide))
                (fun h => by cases h))
              (Step.getDone demoC1 0 0 (by decide) (by decide))
              (fun h => by cases h))
            (Step.deliver demoC2 1 0 (by decide) (by decide) (by decide))
            (fun h => by cases h))
          (Step.settle demoC3 0 0 0 (by decide) (by decide) (by decide))
          (fun _ => by decide))
        (Step.putDone demoC4 0 ⟨⟨"s", 5, true⟩, 60000⟩ 0 (by decide) (by decide))
        (fun h => by cases h))
      (Step.joinResume demoC5 1 0 0 (by decide) (by decide) (by decide) (by decide))
      (fun h => by cases h)
  refine checkStock_dedup demoOracle demoInit demoC6 (by decide) ?_ hpath ?_
  · refine ⟨fun i => rfl, ?_, ?_, rfl, rfl, rfl⟩
    · intro e he
      cases he
    · intro e he
      cases he
  · intro i
    fin_cases i
    · exact ⟨demoOracle 0, by decide⟩
    · exact ⟨demoOracle 0, by decide⟩

/-- C3: inflight cleanup on failure.  When the upstream fetch of a
registered `checkStock` call settles with an error, the resulting step
(the only transition available to that call, so the cleanup cannot be
skipped) propagates exactly that error to the caller, removes the
inflight entry, and leaves both the memory tier and the durable tier
untouched; a call delivered afterwards does not join a stale inflight
entry but proceeds through the cache tiers (returning a fresh memory
entry or reaching the durable read, hence retrying). -/
theorem checkStock_inflight_cleanup
    (oracle : Nat → Except UpstreamError StockResult) {n : Nat}
    (c : Config n) (i : Fin n) (fid t : Nat) (e : UpstreamError)
    (hth : c.th i = TS.waitFetch fid) (hp : fid ∈ c.pending)
    (ht : c.clock ≤ t) (herr : oracle fid = .error e) :
    Step oracle c .settle (settleStep oracle c i fid t) ∧
    (settleStep oracle c i fid t).th i = TS.done (.error e) ∧
    (settleStep oracle c i fid t).inflight = none ∧
    (settleStep oracle c i fid t).mem = c.mem ∧
    (settleStep oracle c i fid t).stor = c.stor ∧
    (∀ j t2, (settleStep oracle c i fid t).th j = TS.start →
       (deliverStep (settleStep oracle c i fid t) j t2).th j = TS.waitGet ∨
       ∃ r, (deliverStep (settleStep oracle c i fid t) j t2).th j =
          TS.done (.ok r)) := by
  have heq := settleStep_eq_err oracle c i fid t e herr
  have hinf2 : (settleStep oracle c i fid t).inflight = none := by rw [heq]
  refine ⟨Step.settle c i fid t hth hp ht, ?_, hinf2, ?_, ?_, ?_⟩
  · rw [heq]
    exact Function.update_same i _ c.th
  · rw [heq]
  · rw [heq]
  · intro j t2 hj
    by_cases hm : ∃ e2, (settleStep oracle c i fid t).mem = some e2 ∧
        t2 < e2.expiresAt
    · obtain ⟨e2, hme, hf⟩ := hm
      right
      refine ⟨e2.data, ?_⟩
      rw [deliverStep_eq_memhit _ j t2 e2 hinf2 hme hf]
      exact Function.update_same j _ _
    · left
      rw [deliverStep_eq_waitGet _ j t2 hinf2
        (fun e2 he2 hf2 => hm ⟨e2, he2, hf2⟩)]
      exact Function.update_same j _ _

/-- Oracle whose every fetch fails with a typed API error. -/
def demoErrOracle : Nat → Except UpstreamError StockResult :=
  fun _ => .error (.apiError 500 "boom")

/-- One call with fetch 0 registered and pending. -/
def demoErrCfg : Config 1 :=
  { th := fun _ => TS.waitFetch 0, mem := none, stor := none,
    inflight := some 0, pending := [0], fired := 1, clock := 0 }

/-- Witness for C3 on a concrete failing fetch. -/
theorem checkStock_inflight_cleanup_witness :
    Step demoErrOracle demoErrCfg .settle
      (settleStep demoErrOracle demoErrCfg 0 0 5) ∧
    (settleStep demoErrOracle demoErrCfg 0 0 5).th 0 =
      TS.done (.error (.apiError 500 "boom")) ∧
    (settleStep demoErrOracle demoErrCfg 0 0 5).inflight = none ∧
    (settleStep demoErrOracle demoErrCfg 0 0 5).mem = demoErrCfg.mem ∧
    (settleStep demoErrOracle demoErrCfg 0 0 5).stor = demoErrCfg.stor ∧
    (∀ j t2, (settleStep demoErrOracle demoErrCfg 0 0 5).th j = TS.start →
       (deliverStep (settleStep demoErrOracle demoErrCfg 0 0 5) j t2).th j =
         TS.waitGet ∨
       ∃ r, (deliverStep (settleStep demoErrOracle demoErrCfg 0 0 5) j t2).th j =
          TS.done (.ok r)) :=
  checkStock_inflight_cleanup demoErrOracle demoErrCfg 0 0 5
    (.apiError 500 "boom") rfl (by decide) (by decide) rfl

end AgentEcom
